import Mathlib

/-!
Verification of the job orchestration and dispatch subsystem of the
file-converter repository: the priority queue (services/shared/queue.py),
the job state machine (services/shared/models/job.py), the job-manager
HTTP operations (services/job-manager-service/main.py) and the generic
conversion-worker harness (services/*-service/conversion_worker.py).

Shallow embedding conventions:
- Python enums become Lean inductives with the same members.
- The Redis sorted set backing a queue is modelled as an association list
  of (member, score) pairs with unique members; ZADD, ZPOPMAX and ZREM are
  modelled with the semantics the code relies on (ZPOPMAX returns a member
  with maximal score; the tie order among equal scores is unspecified in
  the spec, and the model resolves ties by list position).
- Machine-level failures (a Redis command raising, a database commit
  raising) are modelled by explicit boolean outcome flags on each event;
  the code catches these exceptions, so each embedded operation is total.
- Wall-clock fields (created_at, started_at, completed_at) carry no claim
  content and are omitted from the job-row model.
-/

namespace FileConv

/-- JobStatus enum from services/shared/models/job.py. -/
inductive JobStatus where
  | uploaded
  | pending
  | processing
  | completed
  | failed
  | cancelled
deriving DecidableEq

/-- ConversionType enum from services/shared/models/job.py. -/
inductive ConversionType where
  | docx_to_pdf
  | pdf_to_docx
  | pdf_to_jpg
  | pdf_to_png
  | jpg_to_pdf
  | png_to_pdf
deriving DecidableEq

/-- The .value string of a ConversionType member. -/
def ConversionType.value : ConversionType → String
  | .docx_to_pdf => "docx_to_pdf"
  | .pdf_to_docx => "pdf_to_docx"
  | .pdf_to_jpg => "pdf_to_jpg"
  | .pdf_to_png => "pdf_to_png"
  | .jpg_to_pdf => "jpg_to_pdf"
  | .png_to_pdf => "png_to_pdf"

/-- QueueName enum from services/shared/queue.py.  Note: it has no
MP4_MP3 member; cancel_job in the job manager nevertheless mentions one. -/
inductive QueueName where
  | DOCX_PDF
  | PDF_DOCX
  | PDF_IMAGE
  | IMAGE_PDF
  | NOTIFICATIONS
deriving DecidableEq

/-- A Redis sorted set: (member, score) pairs, members unique in any state
the code can build. -/
abbrev ZSet (α : Type) := List (α × Int)

/-- ZADD key {member: score}: if the member exists its score is updated in
place, otherwise the member is inserted.  Returns nothing here; the number
of newly added members the real command reports is zaddIsNew below. -/
def zadd [DecidableEq α] (q : ZSet α) (m : α) (sc : Int) : ZSet α :=
  if q.any (fun p => p.1 == m) then
    q.map (fun p => if p.1 == m then (p.1, sc) else p)
  else
    q ++ [(m, sc)]

/-- True exactly when ZADD of this member reports 1 added member, which is
what RedisQueue.enqueue's truthiness test observes. -/
def zaddIsNew [DecidableEq α] (q : ZSet α) (m : α) : Bool :=
  !(q.any (fun p => p.1 == m))

/-- ZPOPMAX (and the popping half of BZPOPMAX): removes and returns an
entry with maximal score.  Ties among equal scores are resolved by list
position; the spec leaves the tie order unspecified. -/
def zpopmax {α : Type} : ZSet α → Option ((α × Int) × ZSet α)
  | [] => none
  | (m, sc) :: rest =>
    match zpopmax rest with
    | none => some ((m, sc), [])
    | some ((m', sc'), rest') =>
      if sc' ≤ sc then some ((m, sc), rest)
      else some ((m', sc'), (m, sc) :: rest')

/-- ZREM of one member: removes that member's entry. -/
def zrem [DecidableEq α] (q : ZSet α) (m : α) : ZSet α :=
  match q with
  | [] => []
  | p :: rest => if p.1 == m then rest else p :: zrem rest m

/-- ZCARD: number of outstanding entries. -/
def zcard {α : Type} (q : ZSet α) : Nat := q.length

/-- The metadata dict attached to messages this system constructs:
upload_file sends original_size and client_ip; retry_uploaded_jobs adds
a retry key set to True.  retry = false models the absent key. -/
structure Metadata where
  original_size : Int
  client_ip : Option String
  retry : Bool
deriving DecidableEq

/-- QueueMessage dataclass from services/shared/queue.py, at the types its
fields carry in every message this system constructs.  conversion_type is
a string because callers pass ConversionType.value.  Two messages are
byte-for-byte identical as JSON exactly when they are equal here, since
to_json serializes the fields in a fixed order (lemma msgToJval_inj). -/
structure QueueMessage where
  job_id : String
  conversion_type : String
  file_path : String
  filename : String
  priority : Int
  retry_count : Int
  metadata : Option Metadata
deriving DecidableEq

/-- RedisQueue.enqueue: ZADD with score = -priority ("negative for
descending order"), returning True exactly when Redis reports a newly
added member; on a pre-existing identical member it returns False. -/
def enqueueMsg (q : ZSet QueueMessage) (m : QueueMessage) :
    Bool × ZSet QueueMessage :=
  (zaddIsNew q m, zadd q m (-m.priority))

/-- RedisQueue.dequeue at the level where every member is the to_json
image of a QueueMessage: BZPOPMAX pops the maximal-score member; a None
from Redis (timeout) yields None.  For members produced by to_json the
deserialization step always succeeds (lemma fromJsonPy_msgToJval), so it
is elided here; dequeueJ below keeps it for arbitrary wire content. -/
def dequeueMsg (q : ZSet QueueMessage) :
    Option QueueMessage × ZSet QueueMessage :=
  match zpopmax q with
  | none => (none, q)
  | some ((m, _), q') => (some m, q')

/-- RedisQueue.remove_job: ZRANGE scans the queue, and the first member
whose deserialized job_id matches is removed with ZREM; returns whether a
member was removed.  (The scan order only matters if two members share a
job_id; reachable states never hold two such members.) -/
def removeJobQ (q : ZSet QueueMessage) (jobId : String) :
    Bool × ZSet QueueMessage :=
  match q.find? (fun p => p.1.job_id == jobId) with
  | some p => (true, zrem q p.1)
  | none => (false, q)

/-- A JSON value: the wire form of a queue member. -/
inductive Jval where
  | jnull
  | jbool (b : Bool)
  | jint (n : Int)
  | jstr (s : String)
  | jarr (xs : List Jval)
  | jobj (kvs : List (String × Jval))

/-- Dict lookup on a parsed JSON object: json.loads keeps the last
occurrence of a duplicated key. -/
def jlookup (kvs : List (String × Jval)) (k : String) : Option Jval :=
  ((kvs.filter (fun kv => kv.1 == k)).getLast?).map (fun kv => kv.2)

/-- The field names of the QueueMessage dataclass, in declaration order. -/
def qmFields : List String :=
  ["job_id", "conversion_type", "file_path", "filename",
   "priority", "retry_count", "metadata"]

/-- QueueMessage.from_json as Python executes it: cls(star-star-data)
binds each dict entry to the dataclass field of the same name with NO
runtime type validation, so each field holds an arbitrary JSON value. -/
structure PyMessage where
  job_id : Jval
  conversion_type : Jval
  file_path : Jval
  filename : Jval
  priority : Jval
  retry_count : Jval
  metadata : Jval

/-- QueueMessage.from_json: json.loads of the member, then construction of
the dataclass from the resulting dict.  It fails (raises, yielding None
from dequeue) exactly when the value is not an object, holds a key that is
not a dataclass field, or misses one of the four required fields; the
fields with dataclass defaults (priority = 0, retry_count = 0,
metadata = None) may be absent. -/
def fromJsonPy : Jval → Option PyMessage
  | .jobj kvs =>
    if kvs.all (fun kv => qmFields.contains kv.1) then
      match jlookup kvs "job_id", jlookup kvs "conversion_type",
            jlookup kvs "file_path", jlookup kvs "filename" with
      | some jid, some ct, some fp, some fn =>
        some { job_id := jid, conversion_type := ct, file_path := fp,
               filename := fn,
               priority := (jlookup kvs "priority").getD (.jint 0),
               retry_count := (jlookup kvs "retry_count").getD (.jint 0),
               metadata := (jlookup kvs "metadata").getD .jnull }
      | _, _, _, _ => none
    else none
  | _ => none

/-- Serialization of the metadata dict, in construction order. -/
def metaJval : Option Metadata → Jval
  | none => .jnull
  | some md =>
    .jobj ([("original_size", .jint md.original_size),
            ("client_ip", match md.client_ip with
                          | none => .jnull
                          | some ip => .jstr ip)] ++
           (if md.retry then [("retry", .jbool true)] else []))

/-- QueueMessage.to_json: json.dumps(asdict(self)), the fields in
dataclass declaration order. -/
def msgToJval (m : QueueMessage) : Jval :=
  .jobj [("job_id", .jstr m.job_id),
         ("conversion_type", .jstr m.conversion_type),
         ("file_path", .jstr m.file_path),
         ("filename", .jstr m.filename),
         ("priority", .jint m.priority),
         ("retry_count", .jint m.retry_count),
         ("metadata", metaJval m.metadata)]

/-- RedisQueue.dequeue over arbitrary wire content: BZPOPMAX pops the
maximal-score member, then from_json runs on it; an exception there is
caught by the catch-all handler and dequeue returns None, with the popped
member neither kept nor re-queued.  A timeout also returns None. -/
def dequeueJ (q : ZSet Jval) : Option PyMessage × ZSet Jval :=
  match zpopmax q with
  | none => (none, q)
  | some ((v, _), q') =>
    match fromJsonPy v with
    | some m => (some m, q')
    | none => (none, q')

/-- The claim-relevant columns of the Job row
(services/shared/models/job.py); wall-clock columns are omitted. -/
structure JobRec where
  filename : String
  conversion_type : ConversionType
  status : JobStatus
  original_size : Int
  file_path : String
  output_path : Option String
  assigned_service : Option String
  worker_id : Option String
  error_message : Option String
  client_ip : Option String
deriving DecidableEq

/-- The query db.query(Job).filter(Job.id == job_id).first() on the job
table,
modelled as an insertion-ordered association list with unique keys. -/
def lookupJob (jobs : List (String × JobRec)) (j : String) : Option JobRec :=
  (jobs.find? (fun p => p.1 == j)).map (fun p => p.2)

/-- An in-place update of one row; a missing row updates nothing, which is
exactly how the workers' _update_status behaves. -/
def mapJob (jobs : List (String × JobRec)) (j : String)
    (f : JobRec → JobRec) : List (String × JobRec) :=
  jobs.map (fun p => if p.1 == j then (p.1, f p.2) else p)

/-- The row updates the services perform (§4.1 transitions as the code
writes them). -/
def toPending (x : JobRec) : JobRec := { x with status := .pending }

def toCancelled (x : JobRec) : JobRec := { x with status := .cancelled }

def toProcessing (w svc : String) (x : JobRec) : JobRec :=
  { x with status := .processing, worker_id := some w,
           assigned_service := some svc }

def toCompleted (out : String) (x : JobRec) : JobRec :=
  { x with status := .completed, output_path := some out }

def toFailed (e : String) (x : JobRec) : JobRec :=
  { x with status := .failed, error_message := some e }

/-- The global state the services coordinate through: the Job Store, the
Redis queues, the workers' in-flight claims and the Object Store paths. -/
structure SysState where
  jobs : List (String × JobRec)
  queues : QueueName → ZSet QueueMessage
  inflight : List (String × QueueMessage)
  store : List String

/-- Pointwise update of one queue. -/
def setQueue (f : QueueName → ZSet QueueMessage) (qn : QueueName)
    (q : ZSet QueueMessage) : QueueName → ZSet QueueMessage :=
  fun x => if x = qn then q else f x

def initState : SysState :=
  { jobs := [], queues := fun _ => [], inflight := [], store := [] }

/-- The conversion_map of upload_file: explicit conversion-type parameter
to (ConversionType, QueueName). -/
def conversionMap : List (String × (ConversionType × QueueName)) :=
  [("docx_to_pdf", (.docx_to_pdf, .DOCX_PDF)),
   ("pdf_to_docx", (.pdf_to_docx, .PDF_DOCX)),
   ("pdf_to_jpg", (.pdf_to_jpg, .PDF_IMAGE)),
   ("pdf_to_png", (.pdf_to_png, .PDF_IMAGE)),
   ("jpg_to_pdf", (.jpg_to_pdf, .IMAGE_PDF)),
   ("png_to_pdf", (.png_to_pdf, .IMAGE_PDF))]

/-- Python str.lower() over the characters of the string. -/
def pyLower (s : String) : String := ⟨s.data.map Char.toLower⟩

/-- Python str.endswith(suffix). -/
def pyEndsWith (s suffix : String) : Bool := suffix.data.isSuffixOf s.data

/-- The extension dispatch of upload_file on the lowercased filename. -/
def extDispatch (lower : String) : Option (ConversionType × QueueName) :=
  if pyEndsWith lower ".docx" then some (.docx_to_pdf, .DOCX_PDF)
  else if pyEndsWith lower ".pdf" then some (.pdf_to_docx, .PDF_DOCX)
  else if pyEndsWith lower ".jpg" || pyEndsWith lower ".jpeg" then
    some (.jpg_to_pdf, .IMAGE_PDF)
  else if pyEndsWith lower ".png" then some (.png_to_pdf, .IMAGE_PDF)
  else none

/-- upload_file's conversion-type determination: an explicit parameter
that names a known conversion wins, otherwise the file extension decides,
otherwise the request is rejected. -/
def determineConv (param : Option String) (filename : String) :
    Option (ConversionType × QueueName) :=
  let lower := pyLower filename
  match param with
  | some p =>
    match (conversionMap.find? (fun kv => kv.1 == p)).map (fun kv => kv.2) with
    | some cq => some cq
    | none => extDispatch lower
  | none => extDispatch lower

/-- Default MAX_FILE_SIZE: 100 MB. -/
def maxFileSize : Int := 100 * 1024 * 1024

/-- One /upload request together with the outcome of each fallible
external step: the Object Store write, the row insert and the Redis
enqueue (each failure is an exception the handler catches). -/
structure UploadReq where
  jobId : String
  filename : String
  convParam : Option String
  size : Int
  clientIp : Option String
  storageOk : Bool
  insertOk : Bool
  enqOk : Bool

inductive UploadResp where
  | ok (jobId : String) (status : JobStatus)
  | badRequest
  | tooLarge
  | serverError
deriving DecidableEq

/-- The Object Store path upload_file derives from the job id and the
original filename. -/
def uploadPath (r : UploadReq) : String :=
  "uploads/" ++ r.jobId ++ "_" ++ r.filename

/-- The Job row upload_file inserts at the durability checkpoint. -/
def uploadRow (r : UploadReq) (ct : ConversionType) : JobRec :=
  { filename := r.filename, conversion_type := ct, status := .uploaded,
    original_size := r.size, file_path := uploadPath r, output_path := none,
    assigned_service := none, worker_id := none, error_message := none,
    client_ip := r.clientIp }

/-- The dispatch message upload_file enqueues (priority 1). -/
def uploadMsg (r : UploadReq) (ct : ConversionType) : QueueMessage :=
  { job_id := r.jobId, conversion_type := ct.value,
    file_path := uploadPath r, filename := r.filename, priority := 1,
    retry_count := 0,
    metadata := some { original_size := r.size, client_ip := r.clientIp,
                       retry := false } }

/-- upload_file (services/job-manager-service/main.py, the
upload-commit-enqueue protocol): store the bytes, insert the row as
UPLOADED, attempt the enqueue, and flip the row to PENDING only when the
enqueue reports success; an enqueue failure still answers success. -/
def uploadFile (s : SysState) (r : UploadReq) : UploadResp × SysState :=
  if r.filename == "" then (.badRequest, s)
  else
    match determineConv r.convParam r.filename with
    | none => (.badRequest, s)
    | some (ct, qn) =>
      if maxFileSize < r.size then (.tooLarge, s)
      else if !r.storageOk then (.serverError, s)
      else
        let s1 := { s with store := uploadPath r :: s.store }
        if !r.insertOk || s1.jobs.any (fun p => p.1 == r.jobId) then
          -- the insert raised (also on a duplicate primary key): the
          -- catch-all handler answers 500; the object stays stored
          (.serverError, s1)
        else
          let s2 := { s1 with jobs := s1.jobs ++ [(r.jobId, uploadRow r ct)] }
          if r.enqOk then
            let (isNew, q') := enqueueMsg (s2.queues qn) (uploadMsg r ct)
            let s3 := { s2 with queues := setQueue s2.queues qn q' }
            if isNew then
              (.ok r.jobId .pending,
               { s3 with jobs := mapJob s3.jobs r.jobId toPending })
            else (.ok r.jobId .uploaded, s3)
          else (.ok r.jobId .uploaded, s2)

inductive CancelResult where
  | ok
  | notFound
  | rejected (st : JobStatus)
  | internalError
deriving DecidableEq

/-- The queue-name chain inside cancel_job.  Its elif chain only knows
DOCX_TO_PDF and PDF_TO_DOCX before testing
job.conversion_type == ConversionType.MP4_TO_MP3: ConversionType has no
member MP4_TO_MP3, so for every other conversion type that test raises
AttributeError before the default branch is reached; none signals this. -/
def queueForCancel : ConversionType → Option QueueName
  | .docx_to_pdf => some .DOCX_PDF
  | .pdf_to_docx => some .PDF_DOCX
  | _ => none

/-- cancel_job (DELETE /jobs/{job_id}): terminal statuses are rejected
with 400; a PENDING job first has its queue message removed (the
remove_job result is ignored); then the row is marked CANCELLED.  The
AttributeError path surfaces as a 500 with the state untouched. -/
def cancelJob (s : SysState) (j : String) : CancelResult × SysState :=
  match lookupJob s.jobs j with
  | none => (.notFound, s)
  | some r =>
    if r.status == .completed || r.status == .failed
        || r.status == .cancelled then
      (.rejected r.status, s)
    else
      if r.status == .pending then
        match queueForCancel r.conversion_type with
        | none => (.internalError, s)
        | some qn =>
          let (_, q') := removeJobQ (s.queues qn) j
          (.ok, { s with queues := setQueue s.queues qn q',
                         jobs := mapJob s.jobs j toCancelled })
      else
        (.ok, { s with jobs := mapJob s.jobs j toCancelled })

/-- The queue_map of retry_uploaded_jobs; it covers every ConversionType
member, so the unknown-type branch of the loop is unreachable. -/
def queueFor : ConversionType → QueueName
  | .docx_to_pdf => .DOCX_PDF
  | .pdf_to_docx => .PDF_DOCX
  | .pdf_to_jpg => .PDF_IMAGE
  | .pdf_to_png => .PDF_IMAGE
  | .jpg_to_pdf => .IMAGE_PDF
  | .png_to_pdf => .IMAGE_PDF

/-- The dispatch message retry_uploaded_jobs reconstructs from a stored
row. -/
def retryMsg (j : String) (r : JobRec) : QueueMessage :=
  { job_id := j, conversion_type := r.conversion_type.value,
    file_path := r.file_path, filename := r.filename, priority := 1,
    retry_count := 0,
    metadata := some { original_size := r.original_size,
                       client_ip := r.client_ip, retry := true } }

/-- One iteration of the retry_uploaded_jobs loop over an UPLOADED row:
the oracle says whether the Redis enqueue call succeeds at the
infrastructure level (enqueue returns False both on an exception and on a
pre-existing identical member). -/
def retryStep (oracle : String → Bool) (acc : SysState × Nat × Nat)
    (p : String × JobRec) : SysState × Nat × Nat :=
  let (st, retried, failed) := acc
  let qn := queueFor p.2.conversion_type
  let msg := retryMsg p.1 p.2
  if oracle p.1 then
    let (isNew, q') := enqueueMsg (st.queues qn) msg
    let st1 := { st with queues := setQueue st.queues qn q' }
    if isNew then
      ({ st1 with jobs := mapJob st1.jobs p.1 toPending },
       retried + 1, failed)
    else (st1, retried, failed + 1)
  else (st, retried, failed + 1)

/-- retry_uploaded_jobs (POST /admin/retry-uploaded): scan the rows whose
status is UPLOADED, attempt an enqueue for each, flip the row to PENDING
exactly when the enqueue reports success, and report the two counts. -/
def retryUploadedRun (s : SysState) (oracle : String → Bool) :
    (Nat × Nat) × SysState :=
  let ups := s.jobs.filter (fun p => p.2.status == .uploaded)
  let res := ups.foldl (retryStep oracle) (s, 0, 0)
  ((res.2.1, res.2.2), res.1)

/-- The assigned_service constant each worker pool stamps. -/
def serviceName : QueueName → String
  | .DOCX_PDF => "docx-pdf-service"
  | .PDF_DOCX => "pdf-docx-service"
  | .PDF_IMAGE => "image-service"
  | .IMAGE_PDF => "image-service"
  | .NOTIFICATIONS => "notification-service"

/-- A worker loop claims a message: dequeue pops the maximal-score member
(a timeout is a no-op iteration) and _process_job marks the row
PROCESSING, stamping worker_id and assigned_service.  dbOk models the
status-update transaction, whose failure _update_status logs and
swallows (the worker still goes on to convert). -/
def workerClaim (s : SysState) (w : String) (qn : QueueName)
    (dbOk : Bool) : SysState :=
  if s.inflight.any (fun p => p.1 == w) then s
  else
    match zpopmax (s.queues qn) with
    | none => s
    | some ((m, _), q') =>
      let s1 := { s with queues := setQueue s.queues qn q',
                         inflight := (w, m) :: s.inflight }
      if dbOk then
        { s1 with jobs := mapJob s1.jobs m.job_id
                            (toProcessing w (serviceName qn)) }
      else s1

/-- What the conversion attempt came back with: an output object written
under converted/{job_id}.{ext}, a reported failure, or an exception that
escaped to _process_job's catch-all handler. -/
inductive ConvOutcome where
  | ok (ext : String)
  | err (msg : String)
  | exn (msg : String)
deriving DecidableEq

/-- The terminal write of _process_job: COMPLETED with the
converted/{job_id}.{ext} output object on success, FAILED with the error
text on a reported failure, and FAILED as well when an exception escaped
to the catch-all handler. -/
def finishUpdate (jobId : String) : ConvOutcome → JobRec → JobRec
  | .ok ext => toCompleted ("converted/" ++ jobId ++ "." ++ ext)
  | .err e => toFailed e
  | .exn e => toFailed e

/-- The tail of _process_job: on success the row is marked COMPLETED with
output_path; on a reported failure or an exception it is marked FAILED
with error_message; the finally block clears the in-flight entry on every
path, also when the status write itself fails (dbOk = false). -/
def workerFinish (s : SysState) (w : String) (outcome : ConvOutcome)
    (dbOk : Bool) : SysState :=
  match s.inflight.find? (fun p => p.1 == w) with
  | none => s
  | some wm =>
    let s1 := { s with inflight := s.inflight.filter (fun p => p.1 != w) }
    if dbOk then
      { s1 with jobs := mapJob s1.jobs wm.2.job_id
                          (finishUpdate wm.2.job_id outcome) }
    else s1

/-- The operations that touch the shared state. -/
inductive Event where
  | upload (r : UploadReq)
  | cancel (jobId : String)
  | retryUploaded (oracle : String → Bool)
  | claim (w : String) (qn : QueueName) (dbOk : Bool)
  | finish (w : String) (outcome : ConvOutcome) (dbOk : Bool)

def applyEvent (s : SysState) : Event → SysState
  | .upload r => (uploadFile s r).2
  | .cancel j => (cancelJob s j).2
  | .retryUploaded oracle => (retryUploadedRun s oracle).2
  | .claim w qn dbOk => workerClaim s w qn dbOk
  | .finish w outcome dbOk => workerFinish s w outcome dbOk

def runEvents (s : SysState) (es : List Event) : SysState :=
  es.foldl applyEvent s

/-- The states the system can be in. -/
inductive Reachable : SysState → Prop where
  | init : Reachable initState
  | step {s : SysState} (e : Event) : Reachable s → Reachable (applyEvent s e)

/-- The in-process state of one worker pool, for the harness model:
the active_jobs set, the job table it writes through, and how many loop
iterations have run. -/
structure WState where
  actives : List String
  jobs : List (String × JobRec)
  iters : Nat

/-- The body of _process_job as one function: add the id to active_jobs, mark
PROCESSING, run the conversion, write the terminal status (the except
branch converts an escaped exception into FAILED), and clear the id in
the finally block. -/
def processJob (st : WState) (w : String) (m : QueueMessage)
    (outcome : ConvOutcome) : WState :=
  let actives1 :=
    if st.actives.contains m.job_id then st.actives
    else m.job_id :: st.actives
  let jobs1 := mapJob st.jobs m.job_id (toProcessing w "worker")
  let jobs2 := mapJob jobs1 m.job_id (finishUpdate m.job_id outcome)
  { actives := actives1.filter (fun x => x != m.job_id), jobs := jobs2,
    iters := st.iters }

/-- One _worker_loop iteration: what dequeue returned (none on a timeout
or a queue-level error, which the loop logs and retries) and, when a
message arrived, how its processing went. -/
structure WStep where
  msg : Option QueueMessage
  outcome : ConvOutcome

def loopStep (w : String) (st : WState) (step : WStep) : WState :=
  let st' :=
    match step.msg with
    | none => st
    | some m => processJob st w m step.outcome
  { st' with iters := st'.iters + 1 }

/-- The loop _worker_loop: iterate over the incoming steps; per-job exceptions are
caught inside _process_job, so every step completes and the loop reaches
the next one. -/
def runLoop (w : String) (st : WState) (steps : List WStep) : WState :=
  steps.foldl (loopStep w) st

/-- Whether a row's output_path is set to a non-empty path. -/
def outputSet (r : JobRec) : Bool :=
  match r.output_path with
  | some p => p != ""
  | none => false

/-- Every member of the QueueName enum. -/
def allQueueNames : List QueueName :=
  [.DOCX_PDF, .PDF_DOCX, .PDF_IMAGE, .IMAGE_PDF, .NOTIFICATIONS]

/-- The job ids of the in-flight claims. -/
def inflightIds (s : SysState) : List String :=
  s.inflight.map (fun p => p.2.job_id)

/-- How many queue entries, across all queues, carry a given job id. -/
def msgCount (s : SysState) (j : String) : Nat :=
  (allQueueNames.map
    (fun qn => (s.queues qn).countP (fun p => p.1.job_id == j))).sum

/-- The state invariant the operations maintain: job ids are unique; a
row's output_path is non-empty exactly when it is COMPLETED; each job has
at most one queue entry; a queued message belongs to a PENDING row, sits
in the queue of its row's conversion family and is not in flight; an
in-flight message belongs to a PENDING, PROCESSING or CANCELLED row; and
in-flight job ids are distinct. -/
structure Inv (s : SysState) : Prop where
  keysNodup : (s.jobs.map Prod.fst).Nodup
  outIff : ∀ j r, lookupJob s.jobs j = some r →
    (outputSet r = true ↔ r.status = .completed)
  msgOnce : ∀ j, msgCount s j ≤ 1
  msgRow : ∀ qn m sc, (m, sc) ∈ s.queues qn →
    ∃ r, lookupJob s.jobs m.job_id = some r ∧ r.status = .pending ∧
      qn = queueFor r.conversion_type ∧ m.job_id ∉ inflightIds s
  inflightRow : ∀ w m, (w, m) ∈ s.inflight →
    ∃ r, lookupJob s.jobs m.job_id = some r ∧
      (r.status = .pending ∨ r.status = .processing ∨ r.status = .cancelled)
  inflightNodup : (inflightIds s).Nodup

/-- The duck-typed view of a message as from_json reconstructs it from its
own to_json output. -/
def pyView (m : QueueMessage) : PyMessage :=
  { job_id := .jstr m.job_id, conversion_type := .jstr m.conversion_type,
    file_path := .jstr m.file_path, filename := .jstr m.filename,
    priority := .jint m.priority, retry_count := .jint m.retry_count,
    metadata := metaJval m.metadata }

/-- A dispatch message that differs only in priority (the spec scenario of
one queue holding priorities 5, 1 and 9). -/
def mkPrioMsg (j : String) (pr : Int) : QueueMessage :=
  { job_id := j, conversion_type := "docx_to_pdf",
    file_path := "uploads/f", filename := "a.docx", priority := pr,
    retry_count := 0, metadata := none }

/-- The queue after enqueueing messages of priorities 5, 1 and 9. -/
def q519 : ZSet QueueMessage :=
  (enqueueMsg (enqueueMsg (enqueueMsg [] (mkPrioMsg "a" 5)).2
    (mkPrioMsg "b" 1)).2 (mkPrioMsg "c" 9)).2

/-- An ordinary .docx upload whose enqueue succeeds. -/
def upReqDocx : UploadReq :=
  { jobId := "d1", filename := "doc.docx", convParam := none, size := 10,
    clientIp := none, storageOk := true, insertOk := true, enqOk := true }

/-- A .jpg upload whose enqueue succeeds (its conversion family is
jpg_to_pdf on the IMAGE_PDF queue). -/
def upReqJpg : UploadReq :=
  { jobId := "j1", filename := "pic.jpg", convParam := none, size := 10,
    clientIp := none, storageOk := true, insertOk := true, enqOk := true }

/-- A .docx upload whose Redis enqueue fails: the row parks at UPLOADED. -/
def upReqStuck : UploadReq :=
  { jobId := "u1", filename := "doc.docx", convParam := none, size := 10,
    clientIp := none, storageOk := true, insertOk := true, enqOk := false }

/-- State with one PENDING jpg_to_pdf job (j1) and its queued message. -/
def sJpg : SysState := (uploadFile initState upReqJpg).2

/-- Trace: upload d1 (PENDING), a worker claims it (PROCESSING), the user
cancels it (CANCELLED), the worker finishes successfully (COMPLETED). -/
def sD1 : SysState := (uploadFile initState upReqDocx).2

def sD2 : SysState := workerClaim sD1 "w0" .DOCX_PDF true

def sD3 : SysState := (cancelJob sD2 "d1").2

def sD4 : SysState := workerFinish sD3 "w0" (.ok "pdf") true

/-- Trace without the cancel: upload d1, claim, finish successfully. -/
def sDone : SysState := workerFinish sD2 "w0" (.ok "pdf") true

/-- The row of d1 while PROCESSING, and after COMPLETED. -/
def procRow : JobRec :=
  toProcessing "w0" "docx-pdf-service"
    (toPending (uploadRow upReqDocx .docx_to_pdf))

def doneRow : JobRec := toCompleted "converted/d1.pdf" procRow

/-- State with one job (u1) stuck at UPLOADED after a failed enqueue. -/
def sU1 : SysState := (uploadFile initState upReqStuck).2

/-- A COMPLETED row and a state holding it, for terminal-status checks. -/
def termRow : JobRec :=
  { filename := "a.docx", conversion_type := .docx_to_pdf,
    status := .completed, original_size := 1,
    file_path := "uploads/t1_a.docx",
    output_path := some "converted/t1.pdf",
    assigned_service := some "docx-pdf-service", worker_id := some "w0",
    error_message := none, client_ip := none }

def sTerm : SysState :=
  { jobs := [("t1", termRow)], queues := fun _ => [], inflight := [],
    store := ["uploads/t1_a.docx", "converted/t1.pdf"] }

/-- A pending row, its dispatch message and a one-job worker-pool state
for exercising _process_job. -/
def wRow : JobRec :=
  { filename := "doc.docx", conversion_type := .docx_to_pdf,
    status := .pending, original_size := 10,
    file_path := "uploads/w1_doc.docx", output_path := none,
    assigned_service := none, worker_id := none, error_message := none,
    client_ip := none }

def wMsg : QueueMessage :=
  { job_id := "w1", conversion_type := "docx_to_pdf",
    file_path := "uploads/w1_doc.docx", filename := "doc.docx",
    priority := 1, retry_count := 0, metadata := none }

def wSt0 : WState := { actives := [], jobs := [("w1", wRow)], iters := 0 }

end FileConv

namespace FileConv

theorem lookup_cons (p : String × JobRec) (t : List (String × JobRec)) (j : String) :
    lookupJob (p :: t) j = if p.1 == j then some p.2 else lookupJob t j := by
  by_cases h : p.1 == j
  · simp [lookupJob, List.find?_cons_of_pos, h]
  · simp at h
    simp [lookupJob, List.find?_cons_of_neg, h]

theorem mapJob_cons (p : String × JobRec) (t : List (String × JobRec)) (j : String)
    (f : JobRec → JobRec) :
    mapJob (p :: t) j f = (if p.1 == j then (p.1, f p.2) else p) :: mapJob t j f := by
  by_cases h : p.1 = j <;> simp [mapJob, h]

theorem lookup_mapJob_self (jobs : List (String × JobRec)) (j : String)
    (f : JobRec → JobRec) :
    lookupJob (mapJob jobs j f) j = (lookupJob jobs j).map f := by
  induction jobs with
  | nil => rfl
  | cons p t ih =>
    rw [mapJob_cons]
    by_cases h : p.1 = j
    · simp [lookup_cons, h]
    · simp [lookup_cons, h]
      exact ih

theorem lookup_mapJob_ne (jobs : List (String × JobRec)) (j j' : String)
    (f : JobRec → JobRec) (h : j' ≠ j) :
    lookupJob (mapJob jobs j f) j' = lookupJob jobs j' := by
  induction jobs with
  | nil => rfl
  | cons p t ih =>
    rw [mapJob_cons]
    by_cases hp : p.1 = j
    · have h2 : j ≠ j' := Ne.symm h
      simp [lookup_cons, hp, h2]
      exact ih
    · by_cases hp' : p.1 = j'
      · simp [lookup_cons, hp, hp', h]
      · simp [lookup_cons, hp, hp']
        exact ih

theorem mapJob_keys (jobs : List (String × JobRec)) (j : String)
    (f : JobRec → JobRec) :
    (mapJob jobs j f).map Prod.fst = jobs.map Prod.fst := by
  induction jobs with
  | nil => rfl
  | cons p t ih =>
    rw [mapJob_cons]
    by_cases h : p.1 = j <;> simp [h] <;> exact ih

theorem lookup_append (a b : List (String × JobRec)) (j : String) :
    lookupJob (a ++ b) j =
      match lookupJob a j with
      | some r => some r
      | none => lookupJob b j := by
  induction a with
  | nil => simp [lookupJob]
  | cons p t ih =>
    rw [List.cons_append, lookup_cons, lookup_cons]
    by_cases h : p.1 = j
    · simp [h]
    · simp [h]
      exact ih

theorem lookup_of_mem (jobs : List (String × JobRec)) (j : String) (r : JobRec)
    (hnd : (jobs.map Prod.fst).Nodup) (hm : (j, r) ∈ jobs) :
    lookupJob jobs j = some r := by
  induction jobs with
  | nil => simp at hm
  | cons p t ih =>
    rw [lookup_cons]
    rcases List.mem_cons.mp hm with h | h
    · simp [← h]
    · have hj : j ∈ t.map Prod.fst := List.mem_map.mpr ⟨(j, r), h, rfl⟩
      have hp : p.1 ≠ j := by
        intro he
        rw [List.map_cons, List.nodup_cons] at hnd
        exact hnd.1 (he ▸ hj)
      simp [hp]
      exact ih (by rw [List.map_cons, List.nodup_cons] at hnd; exact hnd.2) h

theorem mem_of_lookup (jobs : List (String × JobRec)) (j : String) (r : JobRec)
    (h : lookupJob jobs j = some r) : (j, r) ∈ jobs := by
  induction jobs with
  | nil => simp [lookupJob] at h
  | cons p t ih =>
    rw [lookup_cons] at h
    by_cases hp : p.1 = j
    · simp [hp] at h
      have he : (j, r) = p := by rw [← hp, ← h]
      rw [he]
      exact List.mem_cons_self _ _
    · simp [hp] at h
      exact List.mem_cons_of_mem _ (ih h)

theorem zpopmax_eq_none {α : Type} (q : ZSet α) (h : zpopmax q = none) :
    q = [] := by
  cases q with
  | nil => rfl
  | cons p t =>
    rcases p with ⟨pm, psc⟩
    rw [zpopmax] at h
    cases hz : zpopmax t with
    | none => rw [hz] at h; simp at h
    | some e =>
      rcases e with ⟨⟨m1, sc1⟩, rest1⟩
      rw [hz] at h
      by_cases hle : sc1 ≤ psc <;> simp [hle] at h

theorem zpopmax_perm {α : Type} (q : ZSet α) :
    ∀ (e : α × Int) (q' : ZSet α), zpopmax q = some (e, q') →
      q.Perm (e :: q') := by
  induction q with
  | nil => intro e q' h; simp [zpopmax] at h
  | cons p t ih =>
    intro e q' h
    rcases p with ⟨pm, psc⟩
    rw [zpopmax] at h
    cases hz : zpopmax t with
    | none =>
      rw [hz] at h
      have ht : t = [] := zpopmax_eq_none t hz
      subst ht
      simp at h
      obtain ⟨he, hq⟩ := h
      subst hq
      rw [← he]
    | some pe =>
      rcases pe with ⟨⟨m1, sc1⟩, rest1⟩
      rw [hz] at h
      have hperm := ih (m1, sc1) rest1 hz
      by_cases hle : sc1 ≤ psc
      · simp [hle] at h
        obtain ⟨he, hq⟩ := h
        subst hq
        rw [← he]
      · simp [hle] at h
        obtain ⟨he, hq⟩ := h
        subst hq
        rw [← he]
        exact List.Perm.trans (List.Perm.cons _ hperm)
          (List.Perm.swap _ _ _)

theorem zaddIsNew_iff {α : Type} [DecidableEq α] (q : ZSet α) (m : α) :
    zaddIsNew q m = true ↔ ∀ p ∈ q, p.1 ≠ m := by
  simp [zaddIsNew]

theorem any_key_eq_false {α : Type} [DecidableEq α] (q : ZSet α) (m : α)
    (h : ∀ p ∈ q, p.1 ≠ m) : q.any (fun p => p.1 == m) = false := by
  rw [List.any_eq_false]
  intro p hp
  simp [h p hp]

theorem zadd_of_new {α : Type} [DecidableEq α] (q : ZSet α) (m : α) (sc : Int)
    (h : ∀ p ∈ q, p.1 ≠ m) : zadd q m sc = q ++ [(m, sc)] := by
  simp [zadd, any_key_eq_false q m h]

theorem zadd_idem {α : Type} [DecidableEq α] (q : ZSet α) (m : α) (sc : Int) :
    zadd (zadd q m sc) m sc = zadd q m sc := by
  by_cases h : q.any (fun p => p.1 == m)
  · have hq1 : zadd q m sc =
        q.map (fun p => if p.1 == m then (p.1, sc) else p) := by
      simp [zadd, h]
    have h2 : ((q.map (fun p => if p.1 == m then (p.1, sc) else p)).any
        (fun p => p.1 == m)) = true := by
      rw [List.any_eq_true] at h ⊢
      obtain ⟨p, hp, he⟩ := h
      refine ⟨if p.1 == m then (p.1, sc) else p, List.mem_map_of_mem _ hp, ?_⟩
      simp at he
      simp [he]
    rw [hq1]
    simp only [zadd, h2, if_pos, List.map_map]
    apply List.map_congr_left
    intro p _
    by_cases hp : p.1 = m <;> simp [hp]
  · have hq1 : zadd q m sc = q ++ [(m, sc)] := by simp [zadd, h]
    have h2 : ((q ++ [(m, sc)]).any (fun p => p.1 == m)) = true := by simp
    rw [hq1]
    simp only [zadd, h2, if_pos, List.map_append]
    have hid : ∀ p ∈ q, (if p.1 == m then (p.1, sc) else p) = p := by
      intro p hp
      have hne : p.1 ≠ m := by
        intro hc
        rw [List.any_eq_true] at h
        exact h ⟨p, hp, by simp [hc]⟩
      simp [hne]
    have hmapq : q.map (fun p => if p.1 == m then (p.1, sc) else p) = q := by
      have := List.map_congr_left (l := q)
        (f := fun p => if p.1 == m then (p.1, sc) else p) (g := id) ?_
      · simpa using this
      · intro p hp
        exact hid p hp
    rw [hmapq]
    simp

theorem find?_decomp {α : Type} (l : List α) (pred : α → Bool) (a : α)
    (h : l.find? pred = some a) :
    ∃ l1 l2, l = l1 ++ a :: l2 ∧ (∀ e ∈ l1, pred e = false) ∧
      pred a = true := by
  induction l with
  | nil => simp at h
  | cons x t ih =>
    by_cases hx : pred x
    · rw [List.find?_cons_of_pos _ hx] at h
      obtain rfl : x = a := by simpa using h
      exact ⟨[], t, rfl, by simp, hx⟩
    · rw [List.find?_cons_of_neg _ (by simpa using hx)] at h
      obtain ⟨l1, l2, he, hcl, hp⟩ := ih h
      refine ⟨x :: l1, l2, by rw [he]; rfl, ?_, hp⟩
      intro e he'
      rcases List.mem_cons.mp he' with rfl | he'
      · simpa using hx
      · exact hcl e he'

theorem zrem_clean {α : Type} [DecidableEq α] (l1 l2 : ZSet α) (m : α)
    (sc : Int) (h : ∀ e ∈ l1, e.1 ≠ m) :
    zrem (l1 ++ (m, sc) :: l2) m = l1 ++ l2 := by
  induction l1 with
  | nil => simp [zrem]
  | cons e t ih =>
    have hne : e.1 ≠ m := h e (List.mem_cons_self _ _)
    rw [List.cons_append, zrem]
    simp [hne]
    exact ih (fun x hx => h x (List.mem_cons_of_mem _ hx))

end FileConv

namespace FileConv

theorem removeJob_found (q : ZSet QueueMessage) (j : String)
    (p : QueueMessage × Int)
    (h : q.find? (fun p => p.1.job_id == j) = some p) :
    ∃ l1 l2, q = l1 ++ p :: l2 ∧ (∀ e ∈ l1, e.1.job_id ≠ j) ∧
      p.1.job_id = j ∧ (removeJobQ q j).2 = l1 ++ l2 := by
  obtain ⟨l1, l2, he, hcl, hp⟩ := find?_decomp q _ p h
  have hpj : p.1.job_id = j := by simpa using hp
  have hcl' : ∀ e ∈ l1, e.1.job_id ≠ j := by
    intro e he'
    have := hcl e he'
    simpa using this
  refine ⟨l1, l2, he, hcl', hpj, ?_⟩
  have hrq : removeJobQ q j = (true, zrem q p.1) := by
    simp [removeJobQ, h]
  rw [hrq]
  show zrem q p.1 = l1 ++ l2
  rw [he]
  rcases p with ⟨pm, psc⟩
  apply zrem_clean
  intro e hel hc
  exact hcl' e hel (by rw [hc]; exact hpj)

theorem removeJob_result (q : ZSet QueueMessage) (j : String)
    (hcount : q.countP (fun p => p.1.job_id == j) ≤ 1) :
    ((removeJobQ q j).2.countP (fun p => p.1.job_id == j) = 0) ∧
    (∀ e ∈ (removeJobQ q j).2, e ∈ q) ∧
    (∀ pr : (QueueMessage × Int) → Bool,
      (removeJobQ q j).2.countP pr ≤ q.countP pr) := by
  cases hf : q.find? (fun p => p.1.job_id == j) with
  | none =>
    have hq : removeJobQ q j = (false, q) := by simp [removeJobQ, hf]
    rw [hq]
    have h0 : q.countP (fun p => p.1.job_id == j) = 0 := by
      rw [List.countP_eq_zero]
      intro a ha
      have := List.find?_eq_none.mp hf a ha
      simpa using this
    exact ⟨h0, fun e he => he, fun pr => le_refl _⟩
  | some p =>
    obtain ⟨l1, l2, he, hcl, hpj, hres⟩ := removeJob_found q j p hf
    rw [hres]
    have hcq : q.countP (fun p => p.1.job_id == j) =
        l1.countP (fun p => p.1.job_id == j) +
        l2.countP (fun p => p.1.job_id == j) + 1 := by
      rw [he, List.countP_append, List.countP_cons]
      simp [hpj]
      omega
    refine ⟨?_, ?_, ?_⟩
    · rw [List.countP_append]
      omega
    · intro e hee
      rw [he]
      rcases List.mem_append.mp hee with h1 | h2
      · exact List.mem_append.mpr (Or.inl h1)
      · exact List.mem_append.mpr (Or.inr (List.mem_cons_of_mem _ h2))
    · intro pr
      rw [he, List.countP_append, List.countP_append, List.countP_cons]
      omega

theorem setQueue_same (f : QueueName → ZSet QueueMessage) (qn : QueueName)
    (q : ZSet QueueMessage) : setQueue f qn q qn = q := by
  simp [setQueue]

theorem setQueue_other (f : QueueName → ZSet QueueMessage) (qn qn' : QueueName)
    (q : ZSet QueueMessage) (h : qn' ≠ qn) : setQueue f qn q qn' = f qn' := by
  simp [setQueue, h]

theorem allQueueNames_complete (qn : QueueName) : qn ∈ allQueueNames := by
  cases qn <;> simp [allQueueNames]

theorem allQueueNames_count (qn : QueueName) : allQueueNames.count qn = 1 := by
  cases qn <;> decide

theorem sum_map_update (l : List QueueName) (f g : QueueName → Nat)
    (a : QueueName) (hc : l.count a = 1)
    (hagree : ∀ x, x ≠ a → f x = g x) :
    (l.map f).sum + g a = (l.map g).sum + f a := by
  induction l with
  | nil => simp at hc
  | cons x t ih =>
    rw [List.count_cons] at hc
    by_cases hx : x = a
    · subst hx
      simp at hc
      have hnot : ∀ y ∈ t, y ≠ x := by
        intro y hy hcon
        subst hcon
        rw [List.count_eq_zero] at hc
        exact hc hy
      have hmt : t.map f = t.map g := by
        apply List.map_congr_left
        intro y hy
        exact hagree y (hnot y hy)
      simp [hmt]
      omega
    · have hc' : t.count a = 1 := by
        simp [hx] at hc
        omega
      have := ih hc'
      have hfx : f x = g x := hagree x hx
      simp [hfx]
      omega

theorem msgCount_setQueue (s s' : SysState) (qn : QueueName)
    (qq : ZSet QueueMessage) (j : String)
    (h : s'.queues = setQueue s.queues qn qq) :
    msgCount s' j + (s.queues qn).countP (fun p => p.1.job_id == j) =
      msgCount s j + qq.countP (fun p => p.1.job_id == j) := by
  unfold msgCount
  rw [h]
  have := sum_map_update allQueueNames
    (fun x => ((setQueue s.queues qn qq) x).countP (fun p => p.1.job_id == j))
    (fun x => (s.queues x).countP (fun p => p.1.job_id == j))
    qn (allQueueNames_count qn) ?_
  · simp only [setQueue_same] at this
    omega
  · intro x hx
    simp [setQueue_other s.queues qn x qq hx]

theorem msgCount_queues_eq (s s' : SysState) (h : s'.queues = s.queues)
    (j : String) : msgCount s' j = msgCount s j := by
  simp [msgCount, h]

theorem countP_le_msgCount (s : SysState) (qn : QueueName) (j : String) :
    (s.queues qn).countP (fun p => p.1.job_id == j) ≤ msgCount s j := by
  unfold msgCount
  apply List.single_le_sum (fun x _ => Nat.zero_le x)
  exact List.mem_map_of_mem _ (allQueueNames_complete qn)

theorem mem_queue_msgCount (s : SysState) (qn : QueueName)
    (m : QueueMessage) (sc : Int) (hm : (m, sc) ∈ s.queues qn) :
    1 ≤ msgCount s m.job_id := by
  have h1 : 0 < (s.queues qn).countP (fun p => p.1.job_id == m.job_id) := by
    rw [List.countP_pos_iff]
    exact ⟨(m, sc), hm, by simp⟩
  have := countP_le_msgCount s qn m.job_id
  omega

end FileConv

namespace FileConv

theorem lookup_eq_none_iff (jobs : List (String × JobRec)) (j : String) :
    lookupJob jobs j = none ↔ ∀ p ∈ jobs, p.1 ≠ j := by
  simp [lookupJob, List.find?_eq_none]

theorem msgCount_zero_of_no_pending (s : SysState) (hs : Inv s) (j : String)
    (h : ∀ r, lookupJob s.jobs j = some r → r.status ≠ .pending) :
    msgCount s j = 0 := by
  by_contra hne
  have hpos : 0 < msgCount s j := Nat.pos_of_ne_zero hne
  unfold msgCount at hpos
  have hex : ∃ qn ∈ allQueueNames,
      0 < (s.queues qn).countP (fun p => p.1.job_id == j) := by
    by_contra hall
    push_neg at hall
    have hz : (allQueueNames.map
        (fun qn => (s.queues qn).countP (fun p => p.1.job_id == j))).sum
          = 0 := by
      apply List.sum_eq_zero
      intro x hx
      obtain ⟨qn, hqn, rfl⟩ := List.mem_map.mp hx
      exact Nat.le_zero.mp (hall qn hqn)
    rw [hz] at hpos
    exact Nat.lt_irrefl 0 hpos
  obtain ⟨qn, _, hq⟩ := hex
  rw [List.countP_pos_iff] at hq
  obtain ⟨⟨m, sc⟩, hm, hj⟩ := hq
  simp at hj
  obtain ⟨r, hr, hrp, _, _⟩ := hs.msgRow qn m sc hm
  rw [hj] at hr
  exact h r hr hrp

theorem not_inflight_of_no_row (s : SysState) (hs : Inv s) (j : String)
    (h : lookupJob s.jobs j = none) : j ∉ inflightIds s := by
  intro hmem
  obtain ⟨⟨w, m⟩, hwm, hjj⟩ := List.mem_map.mp hmem
  obtain ⟨r, hr, _⟩ := hs.inflightRow w m hwm
  rw [hjj] at hr
  rw [h] at hr
  exact Option.noConfusion hr

theorem not_inflight_of_status (s : SysState) (hs : Inv s) (j : String)
    (r : JobRec) (hr : lookupJob s.jobs j = some r)
    (h : r.status ≠ .pending ∧ r.status ≠ .processing ∧
      r.status ≠ .cancelled) : j ∉ inflightIds s := by
  intro hmem
  obtain ⟨⟨w, m⟩, hwm, hjj⟩ := List.mem_map.mp hmem
  obtain ⟨r', hr', hst⟩ := hs.inflightRow w m hwm
  rw [hjj, hr] at hr'
  obtain rfl : r = r' := by simpa using hr'
  rcases hst with h1 | h1 | h1
  · exact h.1 h1
  · exact h.2.1 h1
  · exact h.2.2 h1

theorem zaddIsNew_of_count0 (q : ZSet QueueMessage) (msg : QueueMessage)
    (h : q.countP (fun p => p.1.job_id == msg.job_id) = 0) :
    zaddIsNew q msg = true := by
  rw [zaddIsNew_iff]
  intro p hp hc
  rw [List.countP_eq_zero] at h
  exact h p hp (by simp [hc])

theorem countP_append_one (q : ZSet QueueMessage) (e : QueueMessage × Int)
    (pr : (QueueMessage × Int) → Bool) :
    (q ++ [e]).countP pr = q.countP pr + (if pr e then 1 else 0) := by
  rw [List.countP_append]
  simp [List.countP_cons]

theorem conversionMap_queueFor :
    ∀ kv ∈ conversionMap, kv.2.2 = queueFor kv.2.1 := by decide

theorem determineConv_queueFor (p : Option String) (f : String)
    (ct : ConversionType) (qn : QueueName)
    (h : determineConv p f = some (ct, qn)) : qn = queueFor ct := by
  have hext : ∀ (s : String), extDispatch s = some (ct, qn) →
      qn = queueFor ct := by
    intro s hh
    unfold extDispatch at hh
    split_ifs at hh <;> simp at hh <;>
      simp [← hh.1, ← hh.2, queueFor]
  unfold determineConv at h
  cases p with
  | none => exact hext _ h
  | some pp =>
    simp at h
    cases hfind : conversionMap.find? (fun kv => kv.1 == pp) with
    | none => rw [hfind] at h; simp at h; exact hext _ h
    | some kv =>
      rw [hfind] at h
      simp at h
      have hmem := List.mem_of_find?_eq_some hfind
      have := conversionMap_queueFor kv hmem
      rw [h] at this
      simpa using this

theorem inv_init : Inv initState := by
  refine ⟨?_, ?_, ?_, ?_, ?_, ?_⟩
  · simp [initState]
  · intro j r hr
    simp [initState, lookupJob] at hr
  · intro j
    simp [msgCount, initState]
  · intro qn m sc hm
    simp [initState] at hm
  · intro w m hm
    simp [initState] at hm
  · simp [initState, inflightIds]

end FileConv

namespace FileConv

theorem cancelJob_none (s : SysState) (j : String)
    (h : lookupJob s.jobs j = none) : cancelJob s j = (.notFound, s) := by
  simp [cancelJob, h]

theorem cancelJob_rejected (s : SysState) (j : String) (r : JobRec)
    (h : lookupJob s.jobs j = some r)
    (ht : r.status = .completed ∨ r.status = .failed ∨
      r.status = .cancelled) :
    cancelJob s j = (.rejected r.status, s) := by
  rcases ht with ht | ht | ht <;> simp [cancelJob, h, ht]

theorem cancelJob_attrError (s : SysState) (j : String) (r : JobRec)
    (h : lookupJob s.jobs j = some r) (hp : r.status = .pending)
    (hq : queueForCancel r.conversion_type = none) :
    cancelJob s j = (.internalError, s) := by
  simp [cancelJob, h, hp, hq]

theorem cancelJob_pending (s : SysState) (j : String) (r : JobRec)
    (qn : QueueName) (h : lookupJob s.jobs j = some r)
    (hp : r.status = .pending)
    (hq : queueForCancel r.conversion_type = some qn) :
    cancelJob s j = (.ok,
      { s with queues := setQueue s.queues qn (removeJobQ (s.queues qn) j).2,
               jobs := mapJob s.jobs j toCancelled }) := by
  rcases hrq : removeJobQ (s.queues qn) j with ⟨b, q'⟩
  simp [cancelJob, h, hp, hq, hrq]

theorem cancelJob_direct (s : SysState) (j : String) (r : JobRec)
    (h : lookupJob s.jobs j = some r)
    (ht : r.status = .uploaded ∨ r.status = .processing) :
    cancelJob s j = (.ok, { s with jobs := mapJob s.jobs j toCancelled }) := by
  rcases ht with ht | ht <;> simp [cancelJob, h, ht]

theorem queueForCancel_queueFor (ct : ConversionType) (qn : QueueName)
    (h : queueForCancel ct = some qn) : qn = queueFor ct := by
  cases ct <;> simp [queueForCancel] at h <;> simp [← h, queueFor]

theorem inv_congr (s s' : SysState) (hj : s'.jobs = s.jobs)
    (hq : s'.queues = s.queues) (hi : s'.inflight = s.inflight)
    (hs : Inv s) : Inv s' := by
  have hii : inflightIds s' = inflightIds s := by simp [inflightIds, hi]
  refine ⟨?_, ?_, ?_, ?_, ?_, ?_⟩
  · rw [hj]; exact hs.keysNodup
  · rw [hj]; exact hs.outIff
  · intro j
    rw [msgCount_queues_eq s s' hq j]
    exact hs.msgOnce j
  · intro qn m sc hm
    rw [hq] at hm
    obtain ⟨r, hr, h2, h3, h4⟩ := hs.msgRow qn m sc hm
    exact ⟨r, by rw [hj]; exact hr, h2, h3, by rw [hii]; exact h4⟩
  · intro w m hm
    rw [hi] at hm
    obtain ⟨r, hr, h2⟩ := hs.inflightRow w m hm
    exact ⟨r, by rw [hj]; exact hr, h2⟩
  · rw [hii]; exact hs.inflightNodup

end FileConv

namespace FileConv

theorem outputSet_toCancelled (r : JobRec) :
    outputSet (toCancelled r) = outputSet r := rfl

theorem outputSet_toPending (r : JobRec) :
    outputSet (toPending r) = outputSet r := rfl

theorem outputSet_toProcessing (w svc : String) (r : JobRec) :
    outputSet (toProcessing w svc r) = outputSet r := rfl

theorem inv_map_cancel (s : SysState) (j : String) (r : JobRec)
    (hs : Inv s) (hl : lookupJob s.jobs j = some r)
    (hnc : r.status ≠ .completed) (hnp : r.status ≠ .pending) :
    Inv { s with jobs := mapJob s.jobs j toCancelled } := by
  refine ⟨?_, ?_, ?_, ?_, ?_, ?_⟩
  · show ((mapJob s.jobs j toCancelled).map Prod.fst).Nodup
    rw [mapJob_keys]
    exact hs.keysNodup
  · intro j' r' hr'
    by_cases hjj : j' = j
    · subst hjj
      rw [show ({ s with jobs := mapJob s.jobs j' toCancelled } : SysState).jobs
            = mapJob s.jobs j' toCancelled from rfl] at hr'
      rw [lookup_mapJob_self, hl] at hr'
      simp at hr'
      rw [← hr']
      rw [outputSet_toCancelled]
      have := hs.outIff j' r hl
      constructor
      · intro ho
        exact absurd (this.mp ho) hnc
      · intro hc
        exact absurd hc (by simp [toCancelled])
    · rw [show ({ s with jobs := mapJob s.jobs j toCancelled } : SysState).jobs
            = mapJob s.jobs j toCancelled from rfl] at hr'
      rw [lookup_mapJob_ne _ _ _ _ hjj] at hr'
      exact hs.outIff j' r' hr'
  · intro jj
    exact hs.msgOnce jj
  · intro qn m sc hm
    obtain ⟨r1, hr1, hp1, hloc, hninf⟩ := hs.msgRow qn m sc hm
    have hne : m.job_id ≠ j := by
      intro he
      rw [he, hl] at hr1
      have : r = r1 := by simpa using hr1
      rw [← this] at hp1
      exact hnp hp1
    refine ⟨r1, ?_, hp1, hloc, hninf⟩
    show lookupJob (mapJob s.jobs j toCancelled) m.job_id = some r1
    rw [lookup_mapJob_ne _ _ _ _ hne]
    exact hr1
  · intro w m hm
    obtain ⟨r2, hr2, hst2⟩ := hs.inflightRow w m hm
    by_cases hjj : m.job_id = j
    · refine ⟨toCancelled r2, ?_, Or.inr (Or.inr rfl)⟩
      show lookupJob (mapJob s.jobs j toCancelled) m.job_id
        = some (toCancelled r2)
      rw [hjj] at hr2 ⊢
      rw [lookup_mapJob_self, hr2]
      rfl
    · refine ⟨r2, ?_, hst2⟩
      show lookupJob (mapJob s.jobs j toCancelled) m.job_id = some r2
      rw [lookup_mapJob_ne _ _ _ _ hjj]
      exact hr2
  · exact hs.inflightNodup

theorem inv_cancel_pending (s : SysState) (j : String) (r : JobRec)
    (qn : QueueName) (hs : Inv s) (hl : lookupJob s.jobs j = some r)
    (hp : r.status = .pending) (hqn : qn = queueFor r.conversion_type) :
    Inv { s with
          queues := setQueue s.queues qn (removeJobQ (s.queues qn) j).2,
          jobs := mapJob s.jobs j toCancelled } := by
  have hc1 : (s.queues qn).countP (fun p => p.1.job_id == j) ≤ 1 :=
    le_trans (countP_le_msgCount s qn j) (hs.msgOnce j)
  obtain ⟨hzero, hsub, hmono⟩ := removeJob_result (s.queues qn) j hc1
  refine ⟨?_, ?_, ?_, ?_, ?_, ?_⟩
  · show ((mapJob s.jobs j toCancelled).map Prod.fst).Nodup
    rw [mapJob_keys]
    exact hs.keysNodup
  · intro j' r' hr'
    by_cases hjj : j' = j
    · subst hjj
      rw [show ({ s with
            queues := setQueue s.queues qn (removeJobQ (s.queues qn) j').2,
            jobs := mapJob s.jobs j' toCancelled } : SysState).jobs
            = mapJob s.jobs j' toCancelled from rfl] at hr'
      rw [lookup_mapJob_self, hl] at hr'
      simp at hr'
      rw [← hr', outputSet_toCancelled]
      have := hs.outIff j' r hl
      constructor
      · intro ho
        rw [this.mp ho] at hp
        exact JobStatus.noConfusion hp
      · intro hc
        exact absurd hc (by simp [toCancelled])
    · rw [show ({ s with
            queues := setQueue s.queues qn (removeJobQ (s.queues qn) j).2,
            jobs := mapJob s.jobs j toCancelled } : SysState).jobs
            = mapJob s.jobs j toCancelled from rfl] at hr'
      rw [lookup_mapJob_ne _ _ _ _ hjj] at hr'
      exact hs.outIff j' r' hr'
  · intro jj
    have hkey := msgCount_setQueue s
      { s with queues := setQueue s.queues qn (removeJobQ (s.queues qn) j).2,
               jobs := mapJob s.jobs j toCancelled }
      qn (removeJobQ (s.queues qn) j).2 jj rfl
    have := hs.msgOnce jj
    have hm := hmono (fun p => p.1.job_id == jj)
    omega
  · intro qn' m sc hm
    by_cases hq' : qn' = qn
    · subst hq'
      rw [show ({ s with
            queues := setQueue s.queues qn' (removeJobQ (s.queues qn') j).2,
            jobs := mapJob s.jobs j toCancelled } : SysState).queues qn'
            = (removeJobQ (s.queues qn') j).2 from by
          rw [show ({ s with
            queues := setQueue s.queues qn' (removeJobQ (s.queues qn') j).2,
            jobs := mapJob s.jobs j toCancelled } : SysState).queues
            = setQueue s.queues qn' (removeJobQ (s.queues qn') j).2 from rfl]
          exact setQueue_same _ _ _] at hm
      have hmem := hsub (m, sc) hm
      obtain ⟨r1, hr1, hp1, hloc, hninf⟩ := hs.msgRow qn' m sc hmem
      have hne : m.job_id ≠ j := by
        intro he
        have : (fun p => p.1.job_id == j) ((m, sc) :
            QueueMessage × Int) = true := by simp [he]
        have hpos : 0 <
            (removeJobQ (s.queues qn') j).2.countP
              (fun p => p.1.job_id == j) := by
          rw [List.countP_pos_iff]
          exact ⟨(m, sc), hm, this⟩
        omega
      refine ⟨r1, ?_, hp1, hloc, hninf⟩
      show lookupJob (mapJob s.jobs j toCancelled) m.job_id = some r1
      rw [lookup_mapJob_ne _ _ _ _ hne]
      exact hr1
    · rw [show ({ s with
            queues := setQueue s.queues qn (removeJobQ (s.queues qn) j).2,
            jobs := mapJob s.jobs j toCancelled } : SysState).queues qn'
            = s.queues qn' from setQueue_other _ _ _ _ hq'] at hm
      obtain ⟨r1, hr1, hp1, hloc, hninf⟩ := hs.msgRow qn' m sc hm
      have hne : m.job_id ≠ j := by
        intro he
        rw [he, hl] at hr1
        have : r = r1 := by simpa using hr1
        rw [← this] at hloc
        rw [← hqn] at hloc
        exact hq' hloc
      refine ⟨r1, ?_, hp1, hloc, hninf⟩
      show lookupJob (mapJob s.jobs j toCancelled) m.job_id = some r1
      rw [lookup_mapJob_ne _ _ _ _ hne]
      exact hr1
  · intro w m hm
    obtain ⟨r2, hr2, hst2⟩ := hs.inflightRow w m hm
    by_cases hjj : m.job_id = j
    · refine ⟨toCancelled r2, ?_, Or.inr (Or.inr rfl)⟩
      show lookupJob (mapJob s.jobs j toCancelled) m.job_id
        = some (toCancelled r2)
      rw [hjj] at hr2 ⊢
      rw [lookup_mapJob_self, hr2]
      rfl
    · refine ⟨r2, ?_, hst2⟩
      show lookupJob (mapJob s.jobs j toCancelled) m.job_id = some r2
      rw [lookup_mapJob_ne _ _ _ _ hjj]
      exact hr2
  · exact hs.inflightNodup

theorem inv_cancel (s : SysState) (j : String) (hs : Inv s) :
    Inv (cancelJob s j).2 := by
  cases hl : lookupJob s.jobs j with
  | none =>
    rw [cancelJob_none s j hl]
    exact hs
  | some r =>
    cases hstat : r.status with
    | completed =>
      rw [cancelJob_rejected s j r hl (Or.inl hstat)]
      exact hs
    | failed =>
      rw [cancelJob_rejected s j r hl (Or.inr (Or.inl hstat))]
      exact hs
    | cancelled =>
      rw [cancelJob_rejected s j r hl (Or.inr (Or.inr hstat))]
      exact hs
    | uploaded =>
      rw [cancelJob_direct s j r hl (Or.inl hstat)]
      exact inv_map_cancel s j r hs hl (by rw [hstat]; simp)
        (by rw [hstat]; simp)
    | processing =>
      rw [cancelJob_direct s j r hl (Or.inr hstat)]
      exact inv_map_cancel s j r hs hl (by rw [hstat]; simp)
        (by rw [hstat]; simp)
    | pending =>
      cases hqc : queueForCancel r.conversion_type with
      | none =>
        rw [cancelJob_attrError s j r hl hstat hqc]
        exact hs
      | some qn =>
        rw [cancelJob_pending s j r qn hl hstat hqc]
        exact inv_cancel_pending s j r qn hs hl hstat
          (queueForCancel_queueFor _ _ hqc)

end FileConv

namespace FileConv

theorem msgCount_expand (s : SysState) (j : String) :
    msgCount s j =
      (s.queues .DOCX_PDF).countP (fun p => p.1.job_id == j) +
      ((s.queues .PDF_DOCX).countP (fun p => p.1.job_id == j) +
      ((s.queues .PDF_IMAGE).countP (fun p => p.1.job_id == j) +
      ((s.queues .IMAGE_PDF).countP (fun p => p.1.job_id == j) +
      (s.queues .NOTIFICATIONS).countP (fun p => p.1.job_id == j)))) := by
  simp [msgCount, allQueueNames]

theorem workerClaim_busy (s : SysState) (w : String) (qn : QueueName)
    (dbOk : Bool) (h : s.inflight.any (fun p => p.1 == w) = true) :
    workerClaim s w qn dbOk = s := by
  simp [workerClaim, h]

theorem workerClaim_timeout (s : SysState) (w : String) (qn : QueueName)
    (dbOk : Bool) (hb : s.inflight.any (fun p => p.1 == w) = false)
    (h : zpopmax (s.queues qn) = none) :
    workerClaim s w qn dbOk = s := by
  simp [workerClaim, hb, h]

theorem workerClaim_pop_db (s : SysState) (w : String) (qn : QueueName)
    (m : QueueMessage) (sc : Int) (q' : ZSet QueueMessage)
    (hb : s.inflight.any (fun p => p.1 == w) = false)
    (h : zpopmax (s.queues qn) = some ((m, sc), q')) :
    workerClaim s w qn true =
      { s with queues := setQueue s.queues qn q',
               inflight := (w, m) :: s.inflight,
               jobs := mapJob s.jobs m.job_id
                         (toProcessing w (serviceName qn)) } := by
  simp [workerClaim, hb, h]

theorem workerClaim_pop_nodb (s : SysState) (w : String) (qn : QueueName)
    (m : QueueMessage) (sc : Int) (q' : ZSet QueueMessage)
    (hb : s.inflight.any (fun p => p.1 == w) = false)
    (h : zpopmax (s.queues qn) = some ((m, sc), q')) :
    workerClaim s w qn false =
      { s with queues := setQueue s.queues qn q',
               inflight := (w, m) :: s.inflight } := by
  simp [workerClaim, hb, h]

theorem workerFinish_idle (s : SysState) (w : String) (o : ConvOutcome)
    (dbOk : Bool) (h : s.inflight.find? (fun p => p.1 == w) = none) :
    workerFinish s w o dbOk = s := by
  simp [workerFinish, h]

theorem workerFinish_db (s : SysState) (w : String) (o : ConvOutcome)
    (wm : String × QueueMessage)
    (h : s.inflight.find? (fun p => p.1 == w) = some wm) :
    workerFinish s w o true =
      { s with inflight := s.inflight.filter (fun p => p.1 != w),
               jobs := mapJob s.jobs wm.2.job_id
                         (finishUpdate wm.2.job_id o) } := by
  simp [workerFinish, h]

theorem workerFinish_nodb (s : SysState) (w : String) (o : ConvOutcome)
    (wm : String × QueueMessage)
    (h : s.inflight.find? (fun p => p.1 == w) = some wm) :
    workerFinish s w o false =
      { s with inflight := s.inflight.filter (fun p => p.1 != w) } := by
  simp [workerFinish, h]

end FileConv

namespace FileConv

theorem mapJob_id (jobs : List (String × JobRec)) (j : String) :
    mapJob jobs j (fun x => x) = jobs := by
  induction jobs with
  | nil => rfl
  | cons p t ih =>
    rw [mapJob_cons]
    by_cases h : p.1 = j
    · simp [h]
      exact ⟨by rw [← h], ih⟩
    · simp [h]
      exact ih

theorem other_queue_count_zero (s : SysState) (hs : Inv s)
    (qn qn' : QueueName) (j : String) (hne : qn' ≠ qn)
    (hpos : 1 ≤ (s.queues qn).countP (fun p => p.1.job_id == j)) :
    (s.queues qn').countP (fun p => p.1.job_id == j) = 0 := by
  have hexp := msgCount_expand s j
  have h1 := hs.msgOnce j
  cases qn <;> cases qn' <;> first | exact absurd rfl hne | omega

theorem inv_claim_pop (s : SysState) (w : String) (qn : QueueName)
    (m : QueueMessage) (sc : Int) (q' : ZSet QueueMessage)
    (f : JobRec → JobRec) (hs : Inv s)
    (hpop : zpopmax (s.queues qn) = some ((m, sc), q'))
    (hf_out : ∀ x, outputSet (f x) = outputSet x)
    (hf_st : ∀ x, x.status = .pending →
      ((f x).status = .pending ∨ (f x).status = .processing)) :
    Inv { s with queues := setQueue s.queues qn q',
                 inflight := (w, m) :: s.inflight,
                 jobs := mapJob s.jobs m.job_id f } := by
  have hperm := zpopmax_perm _ _ _ hpop
  have hmem : (m, sc) ∈ s.queues qn :=
    hperm.mem_iff.mpr (List.mem_cons_self _ _)
  obtain ⟨r, hr, hrp, hloc, hninf⟩ := hs.msgRow qn m sc hmem
  have hcntqn : (s.queues qn).countP (fun p => p.1.job_id == m.job_id)
      = q'.countP (fun p => p.1.job_id == m.job_id) + 1 := by
    rw [List.Perm.countP_eq _ hperm]
    simp [List.countP_cons]
  have hq'0 : q'.countP (fun p => p.1.job_id == m.job_id) = 0 := by
    have h1 := countP_le_msgCount s qn m.job_id
    have h2 := hs.msgOnce m.job_id
    omega
  refine ⟨?_, ?_, ?_, ?_, ?_, ?_⟩
  · show ((mapJob s.jobs m.job_id f).map Prod.fst).Nodup
    rw [mapJob_keys]
    exact hs.keysNodup
  · intro j' r' hr'
    by_cases hjj : j' = m.job_id
    · subst hjj
      have hr2 : lookupJob (mapJob s.jobs m.job_id f) m.job_id
          = some r' := hr'
      rw [lookup_mapJob_self, hr] at hr2
      simp at hr2
      rw [← hr2, hf_out]
      have hro : outputSet r = false := by
        cases ho : outputSet r with
        | false => rfl
        | true =>
          rw [(hs.outIff m.job_id r hr).mp ho] at hrp
          exact JobStatus.noConfusion hrp
      rw [hro]
      constructor
      · intro hc
        exact Bool.noConfusion hc
      · intro hc
        rcases hf_st r hrp with hh | hh <;> rw [hc] at hh <;>
          exact JobStatus.noConfusion hh
    · have hr2 : lookupJob (mapJob s.jobs m.job_id f) j' = some r' := hr'
      rw [lookup_mapJob_ne _ _ _ _ hjj] at hr2
      exact hs.outIff j' r' hr2
  · intro jj
    have hkey := msgCount_setQueue s
      { s with queues := setQueue s.queues qn q',
               inflight := (w, m) :: s.inflight,
               jobs := mapJob s.jobs m.job_id f } qn q' jj rfl
    have h1 := hs.msgOnce jj
    have h2 : q'.countP (fun p => p.1.job_id == jj) ≤
        (s.queues qn).countP (fun p => p.1.job_id == jj) := by
      rw [List.Perm.countP_eq _ hperm]
      simp [List.countP_cons]
    omega
  · intro qn'' m1 sc1 hm1
    have hm2 : (m1, sc1) ∈ setQueue s.queues qn q' qn'' := hm1
    show ∃ rr, lookupJob (mapJob s.jobs m.job_id f) m1.job_id = some rr ∧
      rr.status = .pending ∧ qn'' = queueFor rr.conversion_type ∧
      m1.job_id ∉ m.job_id :: inflightIds s
    by_cases hq'' : qn'' = qn
    · subst hq''
      rw [setQueue_same] at hm2
      have hmem1 : (m1, sc1) ∈ s.queues qn'' :=
        hperm.mem_iff.mpr (List.mem_cons_of_mem _ hm2)
      obtain ⟨r1, hr1, hp1, hloc1, hninf1⟩ := hs.msgRow qn'' m1 sc1 hmem1
      have hne : m1.job_id ≠ m.job_id := by
        intro he
        have hpos : 0 < q'.countP (fun p => p.1.job_id == m.job_id) := by
          rw [List.countP_pos_iff]
          exact ⟨(m1, sc1), hm2, by simp [he]⟩
        omega
      refine ⟨r1, ?_, hp1, hloc1, ?_⟩
      · rw [lookup_mapJob_ne _ _ _ _ hne]
        exact hr1
      · intro hc
        rcases List.mem_cons.mp hc with hc | hc
        · exact hne hc
        · exact hninf1 hc
    · rw [setQueue_other _ _ _ _ hq''] at hm2
      obtain ⟨r1, hr1, hp1, hloc1, hninf1⟩ := hs.msgRow qn'' m1 sc1 hm2
      have hne : m1.job_id ≠ m.job_id := by
        intro he
        have hzero := other_queue_count_zero s hs qn qn'' m.job_id hq''
          (by omega)
        have hpos : 0 <
            (s.queues qn'').countP (fun p => p.1.job_id == m.job_id) := by
          rw [List.countP_pos_iff]
          exact ⟨(m1, sc1), hm2, by simp [he]⟩
        omega
      refine ⟨r1, ?_, hp1, hloc1, ?_⟩
      · rw [lookup_mapJob_ne _ _ _ _ hne]
        exact hr1
      · intro hc
        rcases List.mem_cons.mp hc with hc | hc
        · exact hne hc
        · exact hninf1 hc
  · intro w1 m1 hm1
    have hm2 : (w1, m1) ∈ (w, m) :: s.inflight := hm1
    show ∃ rr, lookupJob (mapJob s.jobs m.job_id f) m1.job_id = some rr ∧
      (rr.status = .pending ∨ rr.status = .processing ∨
        rr.status = .cancelled)
    rcases List.mem_cons.mp hm2 with hc | hc
    · have hm1m : m1 = m := congrArg Prod.snd hc
      subst hm1m
      refine ⟨f r, ?_, ?_⟩
      · rw [lookup_mapJob_self, hr]
        rfl
      · rcases hf_st r hrp with hh | hh
        · exact Or.inl hh
        · exact Or.inr (Or.inl hh)
    · obtain ⟨r2, hr2, hst2⟩ := hs.inflightRow w1 m1 hc
      have hne : m1.job_id ≠ m.job_id := by
        intro he
        apply hninf
        rw [← he]
        exact List.mem_map.mpr ⟨(w1, m1), hc, rfl⟩
      refine ⟨r2, ?_, hst2⟩
      rw [lookup_mapJob_ne _ _ _ _ hne]
      exact hr2
  · show (List.map (fun p => p.2.job_id) ((w, m) :: s.inflight)).Nodup
    rw [List.map_cons]
    exact List.nodup_cons.mpr ⟨hninf, hs.inflightNodup⟩

theorem inv_claim (s : SysState) (w : String) (qn : QueueName)
    (dbOk : Bool) (hs : Inv s) : Inv (workerClaim s w qn dbOk) := by
  cases hb : s.inflight.any (fun p => p.1 == w) with
  | true =>
    rw [workerClaim_busy s w qn dbOk hb]
    exact hs
  | false =>
    cases hpop : zpopmax (s.queues qn) with
    | none =>
      rw [workerClaim_timeout s w qn dbOk hb hpop]
      exact hs
    | some pr =>
      rcases pr with ⟨⟨m, sc⟩, q'⟩
      cases dbOk with
      | true =>
        rw [workerClaim_pop_db s w qn m sc q' hb hpop]
        exact inv_claim_pop s w qn m sc q' _ hs hpop
          (fun x => outputSet_toProcessing _ _ x)
          (fun x _ => Or.inr rfl)
      | false =>
        rw [workerClaim_pop_nodb s w qn m sc q' hb hpop]
        have := inv_claim_pop s w qn m sc q' (fun x => x) hs hpop
          (fun x => rfl) (fun x hx => Or.inl hx)
        rw [mapJob_id] at this
        exact this

end FileConv

namespace FileConv

theorem converted_ne_empty (j ext : String) :
    ("converted/" ++ j ++ "." ++ ext) ≠ "" := by
  intro h
  have h2 := congrArg String.length h
  simp [String.length_append] at h2
  exact absurd h2.1.1.1 (by decide)

theorem finishUpdate_cases (j : String) (o : ConvOutcome) (x : JobRec) :
    ((finishUpdate j o x).status = .completed ∧
      outputSet (finishUpdate j o x) = true) ∨
    ((finishUpdate j o x).status = .failed ∧
      outputSet (finishUpdate j o x) = outputSet x) := by
  cases o with
  | ok ext =>
    left
    refine ⟨rfl, ?_⟩
    show (("converted/" ++ j ++ "." ++ ext) != "") = true
    simp
    exact converted_ne_empty j ext
  | err e => exact Or.inr ⟨rfl, rfl⟩
  | exn e => exact Or.inr ⟨rfl, rfl⟩

theorem inflight_filter_nodup (s : SysState) (w : String) (hs : Inv s) :
    ((s.inflight.filter (fun p => p.1 != w)).map
      (fun p => p.2.job_id)).Nodup :=
  hs.inflightNodup.sublist ((List.filter_sublist _).map _)

theorem inv_finish (s : SysState) (w : String) (o : ConvOutcome)
    (dbOk : Bool) (hs : Inv s) : Inv (workerFinish s w o dbOk) := by
  cases hf : s.inflight.find? (fun p => p.1 == w) with
  | none =>
    rw [workerFinish_idle s w o dbOk hf]
    exact hs
  | some wm =>
    have hwmem : wm ∈ s.inflight := List.mem_of_find?_eq_some hf
    have hww : wm.1 = w := by
      have := List.find?_some hf
      simpa using this
    obtain ⟨r, hr, hst⟩ := hs.inflightRow wm.1 wm.2 hwmem
    have hjin : wm.2.job_id ∈ inflightIds s :=
      List.mem_map.mpr ⟨wm, hwmem, rfl⟩
    have hnomsg : ∀ qn m1 sc1, (m1, sc1) ∈ s.queues qn →
        m1.job_id ≠ wm.2.job_id := by
      intro qn m1 sc1 hm1 he
      obtain ⟨r1, hr1, hp1, hloc1, hninf1⟩ := hs.msgRow qn m1 sc1 hm1
      rw [he] at hninf1
      exact hninf1 hjin
    have hrnc : r.status ≠ .completed := by
      rcases hst with h1 | h1 | h1 <;> rw [h1] <;>
        exact fun hc => JobStatus.noConfusion hc
    cases dbOk with
    | false =>
      rw [workerFinish_nodb s w o wm hf]
      refine ⟨hs.keysNodup, hs.outIff, hs.msgOnce, ?_, ?_, ?_⟩
      · intro qn m1 sc1 hm1
        obtain ⟨r1, hr1, hp1, hloc1, hninf1⟩ := hs.msgRow qn m1 sc1 hm1
        refine ⟨r1, hr1, hp1, hloc1, ?_⟩
        show m1.job_id ∉ (s.inflight.filter (fun p => p.1 != w)).map
          (fun p => p.2.job_id)
        intro hc
        obtain ⟨p, hp, hpe⟩ := List.mem_map.mp hc
        exact hninf1 (List.mem_map.mpr ⟨p, List.mem_of_mem_filter hp, hpe⟩)
      · intro w1 m1 hm1
        exact hs.inflightRow w1 m1 (List.mem_of_mem_filter hm1)
      · exact inflight_filter_nodup s w hs
    | true =>
      rw [workerFinish_db s w o wm hf]
      refine ⟨?_, ?_, ?_, ?_, ?_, ?_⟩
      · show ((mapJob s.jobs wm.2.job_id
          (finishUpdate wm.2.job_id o)).map Prod.fst).Nodup
        rw [mapJob_keys]
        exact hs.keysNodup
      · intro j' r' hr'
        by_cases hjj : j' = wm.2.job_id
        · subst hjj
          have hr2 : lookupJob (mapJob s.jobs wm.2.job_id
              (finishUpdate wm.2.job_id o)) wm.2.job_id = some r' := hr'
          rw [lookup_mapJob_self, hr] at hr2
          simp at hr2
          rw [← hr2]
          have hro : outputSet r = false := by
            cases ho : outputSet r with
            | false => rfl
            | true => exact absurd ((hs.outIff wm.2.job_id r hr).mp ho) hrnc
          rcases finishUpdate_cases wm.2.job_id o r with
            ⟨hc, hout⟩ | ⟨hc, hout⟩
          · rw [hc, hout]
            simp
          · rw [hc, hout, hro]
            constructor
            · intro hb
              exact Bool.noConfusion hb
            · intro hb
              exact JobStatus.noConfusion hb
        · have hr2 : lookupJob (mapJob s.jobs wm.2.job_id
              (finishUpdate wm.2.job_id o)) j' = some r' := hr'
          rw [lookup_mapJob_ne _ _ _ _ hjj] at hr2
          exact hs.outIff j' r' hr2
      · exact hs.msgOnce
      · intro qn m1 sc1 hm1
        have hm2 : (m1, sc1) ∈ s.queues qn := hm1
        obtain ⟨r1, hr1, hp1, hloc1, hninf1⟩ := hs.msgRow qn m1 sc1 hm2
        have hne := hnomsg qn m1 sc1 hm2
        refine ⟨r1, ?_, hp1, hloc1, ?_⟩
        · show lookupJob (mapJob s.jobs wm.2.job_id
            (finishUpdate wm.2.job_id o)) m1.job_id = some r1
          rw [lookup_mapJob_ne _ _ _ _ hne]
          exact hr1
        · show m1.job_id ∉ (s.inflight.filter (fun p => p.1 != w)).map
            (fun p => p.2.job_id)
          intro hc
          obtain ⟨p, hp, hpe⟩ := List.mem_map.mp hc
          exact hninf1 (List.mem_map.mpr ⟨p, List.mem_of_mem_filter hp, hpe⟩)
      · intro w1 m1 hm1
        have hmem1 : (w1, m1) ∈ s.inflight := List.mem_of_mem_filter hm1
        have hw1 : w1 ≠ w := by
          have := List.of_mem_filter hm1
          simpa using this
        obtain ⟨r2, hr2, hst2⟩ := hs.inflightRow w1 m1 hmem1
        have hne : m1.job_id ≠ wm.2.job_id := by
          intro he
          have heq := List.inj_on_of_nodup_map hs.inflightNodup
            hmem1 hwmem he
          exact hw1 ((congrArg Prod.fst heq).trans hww)
        refine ⟨r2, ?_, hst2⟩
        show lookupJob (mapJob s.jobs wm.2.job_id
          (finishUpdate wm.2.job_id o)) m1.job_id = some r2
        rw [lookup_mapJob_ne _ _ _ _ hne]
        exact hr2
      · exact inflight_filter_nodup s w hs

end FileConv

namespace FileConv

theorem uploadFile_emptyName (s : SysState) (r : UploadReq)
    (h : r.filename = "") : uploadFile s r = (.badRequest, s) := by
  simp [uploadFile, h]

theorem uploadFile_noConv (s : SysState) (r : UploadReq)
    (h1 : ¬ r.filename = "")
    (hdc : determineConv r.convParam r.filename = none) :
    uploadFile s r = (.badRequest, s) := by
  simp [uploadFile, h1, hdc]

theorem uploadFile_tooLarge (s : SysState) (r : UploadReq)
    (ct : ConversionType) (qn : QueueName) (h1 : ¬ r.filename = "")
    (hdc : determineConv r.convParam r.filename = some (ct, qn))
    (h2 : maxFileSize < r.size) : uploadFile s r = (.tooLarge, s) := by
  simp [uploadFile, h1, hdc, h2]

theorem uploadFile_storageFail (s : SysState) (r : UploadReq)
    (ct : ConversionType) (qn : QueueName) (h1 : ¬ r.filename = "")
    (hdc : determineConv r.convParam r.filename = some (ct, qn))
    (h2 : ¬ maxFileSize < r.size) (h3 : r.storageOk = false) :
    uploadFile s r = (.serverError, s) := by
  simp [uploadFile, h1, hdc, h2, h3]

theorem uploadFile_insertFail (s : SysState) (r : UploadReq)
    (ct : ConversionType) (qn : QueueName) (h1 : ¬ r.filename = "")
    (hdc : determineConv r.convParam r.filename = some (ct, qn))
    (h2 : ¬ maxFileSize < r.size) (h3 : r.storageOk = true)
    (h4 : (!r.insertOk || s.jobs.any (fun p => p.1 == r.jobId)) = true) :
    uploadFile s r =
      (.serverError, { s with store := uploadPath r :: s.store }) := by
  simp [uploadFile, h1, hdc, h2, h3, h4]

theorem uploadFile_enqFail (s : SysState) (r : UploadReq)
    (ct : ConversionType) (qn : QueueName) (h1 : ¬ r.filename = "")
    (hdc : determineConv r.convParam r.filename = some (ct, qn))
    (h2 : ¬ maxFileSize < r.size) (h3 : r.storageOk = true)
    (h4 : r.insertOk = true)
    (h5 : s.jobs.any (fun p => p.1 == r.jobId) = false)
    (h6 : r.enqOk = false) :
    uploadFile s r = (.ok r.jobId .uploaded,
      { s with store := uploadPath r :: s.store,
               jobs := s.jobs ++ [(r.jobId, uploadRow r ct)] }) := by
  simp [uploadFile, h1, hdc, h2, h3, h4, h5, h6]

theorem uploadFile_enqOk (s : SysState) (r : UploadReq)
    (ct : ConversionType) (qn : QueueName) (h1 : ¬ r.filename = "")
    (hdc : determineConv r.convParam r.filename = some (ct, qn))
    (h2 : ¬ maxFileSize < r.size) (h3 : r.storageOk = true)
    (h4 : r.insertOk = true)
    (h5 : s.jobs.any (fun p => p.1 == r.jobId) = false)
    (h6 : r.enqOk = true)
    (hnew : zaddIsNew (s.queues qn) (uploadMsg r ct) = true) :
    uploadFile s r = (.ok r.jobId .pending,
      { s with store := uploadPath r :: s.store,
               jobs := mapJob (s.jobs ++ [(r.jobId, uploadRow r ct)])
                         r.jobId toPending,
               queues := setQueue s.queues qn
                 (zadd (s.queues qn) (uploadMsg r ct)
                   (-(uploadMsg r ct).priority)) }) := by
  simp [uploadFile, h1, hdc, h2, h3, h4, h5, h6, enqueueMsg, hnew]

theorem msgCount_zero_of_no_row (s : SysState) (hs : Inv s) (j : String)
    (h : lookupJob s.jobs j = none) : msgCount s j = 0 :=
  msgCount_zero_of_no_pending s hs j
    (fun r hr => by rw [h] at hr; exact Option.noConfusion hr)

theorem keys_ne_of_count0 (q : ZSet QueueMessage) (msg : QueueMessage)
    (h : q.countP (fun p => p.1.job_id == msg.job_id) = 0) :
    ∀ p ∈ q, p.1 ≠ msg := by
  intro p hp hc
  rw [List.countP_eq_zero] at h
  exact h p hp (by simp [hc])

theorem lookup_append_none (a b : List (String × JobRec)) (j : String)
    (h : lookupJob a j = none) : lookupJob (a ++ b) j = lookupJob b j := by
  rw [lookup_append, h]

theorem lookup_append_some (a b : List (String × JobRec)) (j : String)
    (r : JobRec) (h : lookupJob a j = some r) :
    lookupJob (a ++ b) j = some r := by
  rw [lookup_append, h]

theorem lookup_single_ne (jid j : String) (row : JobRec) (h : j ≠ jid) :
    lookupJob [(jid, row)] j = none := by
  rw [lookup_cons]
  simp [lookupJob]
  intro hc
  exact h hc.symm

theorem inv_append_row (s : SysState) (jid : String) (row : JobRec)
    (st' : List String) (hs : Inv s)
    (hlook : lookupJob s.jobs jid = none) (hst : row.status = .uploaded)
    (hout : row.output_path = none) :
    Inv { s with jobs := s.jobs ++ [(jid, row)], store := st' } := by
  have hkeys : ∀ p ∈ s.jobs, p.1 ≠ jid := (lookup_eq_none_iff _ _).mp hlook
  refine ⟨?_, ?_, ?_, ?_, ?_, ?_⟩
  · show ((s.jobs ++ [(jid, row)]).map Prod.fst).Nodup
    rw [List.map_append]
    rw [List.nodup_append]
    refine ⟨hs.keysNodup, by simp, ?_⟩
    intro a ha
    obtain ⟨p, hp, rfl⟩ := List.mem_map.mp ha
    simp
    exact hkeys p hp
  · intro j' r' hr'
    have hr2 : lookupJob (s.jobs ++ [(jid, row)]) j' = some r' := hr'
    by_cases hjj : j' = jid
    · subst hjj
      rw [lookup_append_none _ _ _ hlook] at hr2
      rw [lookup_cons] at hr2
      simp at hr2
      rw [← hr2, hst]
      simp [outputSet, hout]
    · cases hlo : lookupJob s.jobs j' with
      | none =>
        rw [lookup_append_none _ _ _ hlo, lookup_single_ne _ _ _ hjj] at hr2
        exact Option.noConfusion hr2
      | some rr =>
        rw [lookup_append_some _ _ _ _ hlo] at hr2
        obtain rfl : rr = r' := by simpa using hr2
        exact hs.outIff j' rr hlo
  · intro jj
    exact hs.msgOnce jj
  · intro qn m1 sc1 hm1
    have hm2 : (m1, sc1) ∈ s.queues qn := hm1
    obtain ⟨r1, hr1, hp1, hloc1, hninf1⟩ := hs.msgRow qn m1 sc1 hm2
    refine ⟨r1, ?_, hp1, hloc1, hninf1⟩
    show lookupJob (s.jobs ++ [(jid, row)]) m1.job_id = some r1
    exact lookup_append_some _ _ _ _ hr1
  · intro w1 m1 hm1
    have hm2 : (w1, m1) ∈ s.inflight := hm1
    obtain ⟨r2, hr2, hst2⟩ := hs.inflightRow w1 m1 hm2
    refine ⟨r2, ?_, hst2⟩
    show lookupJob (s.jobs ++ [(jid, row)]) m1.job_id = some r2
    exact lookup_append_some _ _ _ _ hr2
  · exact hs.inflightNodup

end FileConv

namespace FileConv

theorem countP_append_one_true (q : ZSet QueueMessage)
    (e : QueueMessage × Int) (pr : (QueueMessage × Int) → Bool)
    (hpr : pr e = true) :
    (q ++ [e]).countP pr = q.countP pr + 1 := by
  simp [List.countP_append, List.countP_cons, hpr]

theorem countP_append_one_false (q : ZSet QueueMessage)
    (e : QueueMessage × Int) (pr : (QueueMessage × Int) → Bool)
    (hpr : pr e = false) :
    (q ++ [e]).countP pr = q.countP pr := by
  simp [List.countP_append, List.countP_cons, hpr]

theorem msgOnce_after_append (s s' : SysState) (qn : QueueName)
    (msgU : QueueMessage) (scU : Int)
    (h : s'.queues = setQueue s.queues qn (s.queues qn ++ [(msgU, scU)]))
    (hs1 : ∀ jj, msgCount s jj ≤ 1) (h0 : msgCount s msgU.job_id = 0) :
    ∀ jj, msgCount s' jj ≤ 1 := by
  intro jj
  have hkey := msgCount_setQueue s s' qn
    (s.queues qn ++ [(msgU, scU)]) jj h
  by_cases hjj : msgU.job_id = jj
  · rw [countP_append_one_true _ _ _ (by simp [hjj])] at hkey
    rw [hjj] at h0
    omega
  · rw [countP_append_one_false _ _ _ (by simp; exact hjj)] at hkey
    have := hs1 jj
    omega

theorem inv_upload_enqOk (s : SysState) (r : UploadReq)
    (ct : ConversionType) (qn : QueueName) (hs : Inv s)
    (hdc : determineConv r.convParam r.filename = some (ct, qn))
    (hlook : lookupJob s.jobs r.jobId = none) :
    Inv { s with store := uploadPath r :: s.store,
                 jobs := mapJob (s.jobs ++ [(r.jobId, uploadRow r ct)])
                           r.jobId toPending,
                 queues := setQueue s.queues qn
                   (zadd (s.queues qn) (uploadMsg r ct)
                     (-(uploadMsg r ct).priority)) } := by
  have hqnf : qn = queueFor ct := determineConv_queueFor _ _ _ _ hdc
  have hmc : msgCount s r.jobId = 0 := msgCount_zero_of_no_row s hs _ hlook
  have hcq : (s.queues qn).countP (fun p => p.1.job_id == r.jobId) = 0 := by
    have := countP_le_msgCount s qn r.jobId
    omega
  have hz : zadd (s.queues qn) (uploadMsg r ct) (-(uploadMsg r ct).priority)
      = s.queues qn ++ [(uploadMsg r ct, -(uploadMsg r ct).priority)] :=
    zadd_of_new _ _ _ (keys_ne_of_count0 _ _ hcq)
  have hfresh_inf : r.jobId ∉ inflightIds s :=
    not_inflight_of_no_row s hs _ hlook
  have hkeys : ∀ p ∈ s.jobs, p.1 ≠ r.jobId := (lookup_eq_none_iff _ _).mp hlook
  have hLnew : lookupJob (s.jobs ++ [(r.jobId, uploadRow r ct)]) r.jobId
      = some (uploadRow r ct) := by
    rw [lookup_append_none _ _ _ hlook, lookup_cons]
    simp
  have hLs : lookupJob (mapJob (s.jobs ++ [(r.jobId, uploadRow r ct)])
      r.jobId toPending) r.jobId = some (toPending (uploadRow r ct)) := by
    rw [lookup_mapJob_self, hLnew]
    rfl
  have hLne : ∀ j', j' ≠ r.jobId →
      lookupJob (mapJob (s.jobs ++ [(r.jobId, uploadRow r ct)])
        r.jobId toPending) j' = lookupJob s.jobs j' := by
    intro j' hne
    rw [lookup_mapJob_ne _ _ _ _ hne]
    cases hlo : lookupJob s.jobs j' with
    | none => rw [lookup_append_none _ _ _ hlo, lookup_single_ne _ _ _ hne]
    | some rr => rw [lookup_append_some _ _ _ _ hlo]
  refine ⟨?_, ?_, ?_, ?_, ?_, ?_⟩
  · show ((mapJob (s.jobs ++ [(r.jobId, uploadRow r ct)])
      r.jobId toPending).map Prod.fst).Nodup
    rw [mapJob_keys, List.map_append, List.nodup_append]
    refine ⟨hs.keysNodup, by simp, ?_⟩
    intro a ha
    obtain ⟨p, hp, rfl⟩ := List.mem_map.mp ha
    simp
    exact hkeys p hp
  · intro j' r' hr'
    by_cases hjj : j' = r.jobId
    · subst hjj
      have hr2 : lookupJob (mapJob (s.jobs ++ [(r.jobId, uploadRow r ct)])
          r.jobId toPending) r.jobId = some r' := hr'
      rw [hLs] at hr2
      obtain rfl : toPending (uploadRow r ct) = r' := by simpa using hr2
      simp [toPending, uploadRow, outputSet]
    · have hr2 : lookupJob (mapJob (s.jobs ++ [(r.jobId, uploadRow r ct)])
          r.jobId toPending) j' = some r' := hr'
      rw [hLne j' hjj] at hr2
      exact hs.outIff j' r' hr2
  · refine msgOnce_after_append s _ qn (uploadMsg r ct)
      (-(uploadMsg r ct).priority) ?_ hs.msgOnce hmc
    show setQueue s.queues qn
        (zadd (s.queues qn) (uploadMsg r ct) (-(uploadMsg r ct).priority))
      = setQueue s.queues qn
        (s.queues qn ++ [(uploadMsg r ct, -(uploadMsg r ct).priority)])
    rw [hz]
  · intro qn'' m1 sc1 hm1
    have hm2 : (m1, sc1) ∈ setQueue s.queues qn
      (zadd (s.queues qn) (uploadMsg r ct)
        (-(uploadMsg r ct).priority)) qn'' := hm1
    show ∃ rr, lookupJob (mapJob (s.jobs ++ [(r.jobId, uploadRow r ct)])
      r.jobId toPending) m1.job_id = some rr ∧ rr.status = .pending ∧
      qn'' = queueFor rr.conversion_type ∧ m1.job_id ∉ inflightIds s
    by_cases hq'' : qn'' = qn
    · subst hq''
      rw [setQueue_same, hz] at hm2
      rcases List.mem_append.mp hm2 with hmo | hmn
      · obtain ⟨r1, hr1, hp1, hloc1, hninf1⟩ := hs.msgRow qn'' m1 sc1 hmo
        have hne : m1.job_id ≠ r.jobId := by
          intro he
          have := mem_queue_msgCount s qn'' m1 sc1 hmo
          rw [he] at this
          omega
        exact ⟨r1, by rw [hLne m1.job_id hne]; exact hr1, hp1, hloc1, hninf1⟩
      · simp at hmn
        obtain ⟨hm1e, _⟩ := hmn
        rw [hm1e]
        refine ⟨toPending (uploadRow r ct), hLs, rfl, hqnf, hfresh_inf⟩
    · rw [setQueue_other _ _ _ _ hq''] at hm2
      obtain ⟨r1, hr1, hp1, hloc1, hninf1⟩ := hs.msgRow qn'' m1 sc1 hm2
      have hne : m1.job_id ≠ r.jobId := by
        intro he
        have := mem_queue_msgCount s qn'' m1 sc1 hm2
        rw [he] at this
        omega
      exact ⟨r1, by rw [hLne m1.job_id hne]; exact hr1, hp1, hloc1, hninf1⟩
  · intro w1 m1 hm1
    have hm2 : (w1, m1) ∈ s.inflight := hm1
    obtain ⟨r2, hr2, hst2⟩ := hs.inflightRow w1 m1 hm2
    have hne : m1.job_id ≠ r.jobId := by
      intro he
      rw [he, hlook] at hr2
      exact Option.noConfusion hr2
    refine ⟨r2, ?_, hst2⟩
    show lookupJob (mapJob (s.jobs ++ [(r.jobId, uploadRow r ct)])
      r.jobId toPending) m1.job_id = some r2
    rw [hLne m1.job_id hne]
    exact hr2
  · exact hs.inflightNodup

theorem inv_upload (s : SysState) (r : UploadReq) (hs : Inv s) :
    Inv (uploadFile s r).2 := by
  by_cases h1 : r.filename = ""
  · rw [uploadFile_emptyName s r h1]
    exact hs
  · cases hdc : determineConv r.convParam r.filename with
    | none =>
      rw [uploadFile_noConv s r h1 hdc]
      exact hs
    | some cq =>
      rcases cq with ⟨ct, qn⟩
      by_cases h2 : maxFileSize < r.size
      · rw [uploadFile_tooLarge s r ct qn h1 hdc h2]
        exact hs
      · cases h3 : r.storageOk with
        | false =>
          rw [uploadFile_storageFail s r ct qn h1 hdc h2 h3]
          exact hs
        | true =>
          cases h4 : r.insertOk with
          | false =>
            rw [uploadFile_insertFail s r ct qn h1 hdc h2 h3 (by simp [h4])]
            exact inv_congr s _ rfl rfl rfl hs
          | true =>
            cases h5 : s.jobs.any (fun p => p.1 == r.jobId) with
            | true =>
              rw [uploadFile_insertFail s r ct qn h1 hdc h2 h3 (by simp [h5])]
              exact inv_congr s _ rfl rfl rfl hs
            | false =>
              have hlook : lookupJob s.jobs r.jobId = none := by
                rw [lookup_eq_none_iff]
                intro p hp
                have := List.any_eq_false.mp h5 p hp
                simpa using this
              cases h6 : r.enqOk with
              | false =>
                rw [uploadFile_enqFail s r ct qn h1 hdc h2 h3 h4 h5 h6]
                exact inv_append_row s r.jobId (uploadRow r ct) _ hs hlook
                  rfl rfl
              | true =>
                have hmc := msgCount_zero_of_no_row s hs r.jobId hlook
                have hcq : (s.queues qn).countP
                    (fun p => p.1.job_id == r.jobId) = 0 := by
                  have := countP_le_msgCount s qn r.jobId
                  omega
                have hnew : zaddIsNew (s.queues qn) (uploadMsg r ct)
                    = true := zaddIsNew_of_count0 _ _ hcq
                rw [uploadFile_enqOk s r ct qn h1 hdc h2 h3 h4 h5 h6 hnew]
                exact inv_upload_enqOk s r ct qn hs hdc hlook

end FileConv

namespace FileConv

theorem retryStep_noOracle (oracle : String → Bool) (st : SysState)
    (a b : Nat) (p : String × JobRec) (h : oracle p.1 = false) :
    retryStep oracle (st, a, b) p = (st, a, b + 1) := by
  simp [retryStep, h]

theorem retryStep_oracle (oracle : String → Bool) (st : SysState)
    (a b : Nat) (p : String × JobRec) (h : oracle p.1 = true)
    (hnew : zaddIsNew (st.queues (queueFor p.2.conversion_type))
      (retryMsg p.1 p.2) = true) :
    retryStep oracle (st, a, b) p =
      ({ st with
          queues := setQueue st.queues (queueFor p.2.conversion_type)
            (zadd (st.queues (queueFor p.2.conversion_type))
              (retryMsg p.1 p.2) (-(retryMsg p.1 p.2).priority)),
          jobs := mapJob st.jobs p.1 toPending }, a + 1, b) := by
  simp [retryStep, h, enqueueMsg, hnew]

theorem inv_retry_enq (st : SysState) (j : String) (row : JobRec)
    (hs : Inv st) (hl : lookupJob st.jobs j = some row)
    (hup : row.status = .uploaded) :
    Inv { st with
          queues := setQueue st.queues (queueFor row.conversion_type)
            (zadd (st.queues (queueFor row.conversion_type))
              (retryMsg j row) (-(retryMsg j row).priority)),
          jobs := mapJob st.jobs j toPending } := by
  have hnp : ∀ r', lookupJob st.jobs j = some r' → r'.status ≠ .pending := by
    intro r' hr' hc
    rw [hl] at hr'
    obtain rfl : row = r' := by simpa using hr'
    rw [hup] at hc
    exact JobStatus.noConfusion hc
  have hmc : msgCount st j = 0 := msgCount_zero_of_no_pending st hs j hnp
  have hcq : (st.queues (queueFor row.conversion_type)).countP
      (fun p => p.1.job_id == j) = 0 := by
    have := countP_le_msgCount st (queueFor row.conversion_type) j
    omega
  have hz : zadd (st.queues (queueFor row.conversion_type))
      (retryMsg j row) (-(retryMsg j row).priority)
      = st.queues (queueFor row.conversion_type)
        ++ [(retryMsg j row, -(retryMsg j row).priority)] :=
    zadd_of_new _ _ _ (keys_ne_of_count0 _ _ hcq)
  have hninfj : j ∉ inflightIds st := by
    refine not_inflight_of_status st hs j row hl ?_
    rw [hup]
    refine ⟨?_, ?_, ?_⟩ <;> exact fun hc => JobStatus.noConfusion hc
  have hLs : lookupJob (mapJob st.jobs j toPending) j
      = some (toPending row) := by
    rw [lookup_mapJob_self, hl]
    rfl
  refine ⟨?_, ?_, ?_, ?_, ?_, ?_⟩
  · show ((mapJob st.jobs j toPending).map Prod.fst).Nodup
    rw [mapJob_keys]
    exact hs.keysNodup
  · intro j' r' hr'
    by_cases hjj : j' = j
    · subst hjj
      have hr2 : lookupJob (mapJob st.jobs j' toPending) j' = some r' := hr'
      rw [hLs] at hr2
      obtain rfl : toPending row = r' := by simpa using hr2
      have hro : outputSet row = false := by
        cases ho : outputSet row with
        | false => rfl
        | true =>
          rw [(hs.outIff j' row hl).mp ho] at hup
          exact JobStatus.noConfusion hup
      rw [outputSet_toPending, hro]
      constructor
      · intro hc
        exact Bool.noConfusion hc
      · intro hc
        exact JobStatus.noConfusion hc
    · have hr2 : lookupJob (mapJob st.jobs j toPending) j' = some r' := hr'
      rw [lookup_mapJob_ne _ _ _ _ hjj] at hr2
      exact hs.outIff j' r' hr2
  · refine msgOnce_after_append st _ (queueFor row.conversion_type)
      (retryMsg j row) (-(retryMsg j row).priority) ?_ hs.msgOnce hmc
    show setQueue st.queues (queueFor row.conversion_type)
        (zadd (st.queues (queueFor row.conversion_type))
          (retryMsg j row) (-(retryMsg j row).priority))
      = setQueue st.queues (queueFor row.conversion_type)
        (st.queues (queueFor row.conversion_type)
          ++ [(retryMsg j row, -(retryMsg j row).priority)])
    rw [hz]
  · intro qn'' m1 sc1 hm1
    have hm2 : (m1, sc1) ∈ setQueue st.queues (queueFor row.conversion_type)
      (zadd (st.queues (queueFor row.conversion_type))
        (retryMsg j row) (-(retryMsg j row).priority)) qn'' := hm1
    show ∃ rr, lookupJob (mapJob st.jobs j toPending) m1.job_id = some rr ∧
      rr.status = .pending ∧ qn'' = queueFor rr.conversion_type ∧
      m1.job_id ∉ inflightIds st
    by_cases hq'' : qn'' = queueFor row.conversion_type
    · subst hq''
      rw [setQueue_same, hz] at hm2
      rcases List.mem_append.mp hm2 with hmo | hmn
      · obtain ⟨r1, hr1, hp1, hloc1, hninf1⟩ := hs.msgRow _ m1 sc1 hmo
        have hne : m1.job_id ≠ j := by
          intro he
          have := mem_queue_msgCount st _ m1 sc1 hmo
          rw [he] at this
          omega
        exact ⟨r1, by rw [lookup_mapJob_ne _ _ _ _ hne]; exact hr1,
          hp1, hloc1, hninf1⟩
      · simp at hmn
        obtain ⟨hm1e, _⟩ := hmn
        rw [hm1e]
        exact ⟨toPending row, hLs, rfl, rfl, hninfj⟩
    · rw [setQueue_other _ _ _ _ hq''] at hm2
      obtain ⟨r1, hr1, hp1, hloc1, hninf1⟩ := hs.msgRow qn'' m1 sc1 hm2
      have hne : m1.job_id ≠ j := by
        intro he
        have := mem_queue_msgCount st qn'' m1 sc1 hm2
        rw [he] at this
        omega
      exact ⟨r1, by rw [lookup_mapJob_ne _ _ _ _ hne]; exact hr1,
        hp1, hloc1, hninf1⟩
  · intro w1 m1 hm1
    have hm2 : (w1, m1) ∈ st.inflight := hm1
    obtain ⟨r2, hr2, hst2⟩ := hs.inflightRow w1 m1 hm2
    have hne : m1.job_id ≠ j := by
      intro he
      apply hninfj
      rw [← he]
      exact List.mem_map.mpr ⟨(w1, m1), hm2, rfl⟩
    refine ⟨r2, ?_, hst2⟩
    show lookupJob (mapJob st.jobs j toPending) m1.job_id = some r2
    rw [lookup_mapJob_ne _ _ _ _ hne]
    exact hr2
  · exact hs.inflightNodup

end FileConv

namespace FileConv

theorem retry_fold_spec (oracle : String → Bool) :
    ∀ (L : List (String × JobRec)) (st : SysState) (a b : Nat),
    Inv st →
    (∀ p ∈ L, lookupJob st.jobs p.1 = some p.2 ∧ p.2.status = .uploaded) →
    (L.map Prod.fst).Nodup →
    Inv (L.foldl (retryStep oracle) (st, a, b)).1 ∧
    (L.foldl (retryStep oracle) (st, a, b)).2.1
      = a + L.countP (fun p => oracle p.1) ∧
    (L.foldl (retryStep oracle) (st, a, b)).2.2
      = b + L.countP (fun p => !oracle p.1) ∧
    (∀ p ∈ L, lookupJob (L.foldl (retryStep oracle) (st, a, b)).1.jobs p.1
      = some (if oracle p.1 then toPending p.2 else p.2)) ∧
    (∀ j, (∀ p ∈ L, p.1 ≠ j) →
      lookupJob (L.foldl (retryStep oracle) (st, a, b)).1.jobs j
        = lookupJob st.jobs j) := by
  intro L
  induction L with
  | nil =>
    intro st a b hst hB hnd
    refine ⟨hst, by simp, by simp, by simp, ?_⟩
    intro j h
    rfl
  | cons p T ih =>
    intro st a b hst hB hnd
    obtain ⟨hl, hup⟩ := hB p (List.mem_cons_self _ _)
    have hndT : (T.map Prod.fst).Nodup := by
      rw [List.map_cons, List.nodup_cons] at hnd
      exact hnd.2
    have hkeyT : ∀ p' ∈ T, p'.1 ≠ p.1 := by
      intro p' hp' hc
      rw [List.map_cons, List.nodup_cons] at hnd
      exact hnd.1 (hc ▸ List.mem_map.mpr ⟨p', hp', rfl⟩)
    cases ho : oracle p.1 with
    | false =>
      rw [List.foldl_cons, retryStep_noOracle oracle st a b p ho]
      have hBT : ∀ p' ∈ T,
          lookupJob st.jobs p'.1 = some p'.2 ∧ p'.2.status = .uploaded :=
        fun p' hp' => hB p' (List.mem_cons_of_mem _ hp')
      obtain ⟨i1, i2, i3, i4, i5⟩ := ih st a (b + 1) hst hBT hndT
      refine ⟨i1, ?_, ?_, ?_, ?_⟩
      · rw [i2, List.countP_cons]
        simp [ho]
      · rw [i3, List.countP_cons]
        simp [ho]
        omega
      · intro p' hp'
        rcases List.mem_cons.mp hp' with rfl | hp'
        · rw [i5 p'.1 (fun q hq => hkeyT q hq), hl, ho]
          simp
        · exact i4 p' hp'
      · intro j hj
        exact i5 j (fun q hq => hj q (List.mem_cons_of_mem _ hq))
    | true =>
      have hnp : ∀ r', lookupJob st.jobs p.1 = some r' →
          r'.status ≠ .pending := by
        intro r' hr' hc
        rw [hl] at hr'
        obtain rfl : p.2 = r' := by simpa using hr'
        rw [hup] at hc
        exact JobStatus.noConfusion hc
      have hmc : msgCount st p.1 = 0 :=
        msgCount_zero_of_no_pending st hst p.1 hnp
      have hcq : (st.queues (queueFor p.2.conversion_type)).countP
          (fun q => q.1.job_id == p.1) = 0 := by
        have := countP_le_msgCount st (queueFor p.2.conversion_type) p.1
        omega
      have hnew : zaddIsNew (st.queues (queueFor p.2.conversion_type))
          (retryMsg p.1 p.2) = true := zaddIsNew_of_count0 _ _ hcq
      rw [List.foldl_cons, retryStep_oracle oracle st a b p ho hnew]
      have hst1 : Inv { st with
          queues := setQueue st.queues (queueFor p.2.conversion_type)
            (zadd (st.queues (queueFor p.2.conversion_type))
              (retryMsg p.1 p.2) (-(retryMsg p.1 p.2).priority)),
          jobs := mapJob st.jobs p.1 toPending } :=
        inv_retry_enq st p.1 p.2 hst hl hup
      have hBT : ∀ p' ∈ T,
          lookupJob (mapJob st.jobs p.1 toPending) p'.1 = some p'.2 ∧
          p'.2.status = .uploaded := by
        intro p' hp'
        obtain ⟨hl', hup'⟩ := hB p' (List.mem_cons_of_mem _ hp')
        rw [lookup_mapJob_ne _ _ _ _ (hkeyT p' hp')]
        exact ⟨hl', hup'⟩
      obtain ⟨i1, i2, i3, i4, i5⟩ := ih _ (a + 1) b hst1 hBT hndT
      refine ⟨i1, ?_, ?_, ?_, ?_⟩
      · rw [i2, List.countP_cons]
        simp [ho]
        omega
      · rw [i3, List.countP_cons]
        simp [ho]
      · intro p' hp'
        rcases List.mem_cons.mp hp' with rfl | hp'
        · rw [i5 p'.1 (fun q hq => hkeyT q hq)]
          show lookupJob (mapJob st.jobs p'.1 toPending) p'.1
            = some (if oracle p'.1 then toPending p'.2 else p'.2)
          rw [lookup_mapJob_self, hl, ho]
          rfl
        · exact i4 p' hp'
      · intro j hj
        rw [i5 j (fun q hq => hj q (List.mem_cons_of_mem _ hq))]
        show lookupJob (mapJob st.jobs p.1 toPending) j = lookupJob st.jobs j
        exact lookup_mapJob_ne _ _ _ _
          (fun hc => hj p (List.mem_cons_self _ _) hc.symm)

theorem inv_retry (s : SysState) (oracle : String → Bool) (hs : Inv s) :
    Inv (retryUploadedRun s oracle).2 := by
  have hB : ∀ p ∈ s.jobs.filter (fun p => p.2.status == .uploaded),
      lookupJob s.jobs p.1 = some p.2 ∧ p.2.status = .uploaded := by
    intro p hp
    have hmem := List.mem_of_mem_filter hp
    have hupl := List.of_mem_filter hp
    simp at hupl
    exact ⟨lookup_of_mem s.jobs p.1 p.2 hs.keysNodup
      (by rw [show (p.1, p.2) = p from rfl]; exact hmem), hupl⟩
  have hnd : ((s.jobs.filter
      (fun p => p.2.status == .uploaded)).map Prod.fst).Nodup :=
    hs.keysNodup.sublist ((List.filter_sublist _).map _)
  exact (retry_fold_spec oracle _ s 0 0 hs hB hnd).1

theorem inv_applyEvent (s : SysState) (e : Event) (hs : Inv s) :
    Inv (applyEvent s e) := by
  cases e with
  | upload r => exact inv_upload s r hs
  | cancel j => exact inv_cancel s j hs
  | retryUploaded oracle => exact inv_retry s oracle hs
  | claim w qn dbOk => exact inv_claim s w qn dbOk hs
  | finish w o dbOk => exact inv_finish s w o dbOk hs

theorem inv_reach (s : SysState) (h : Reachable s) : Inv s := by
  induction h with
  | init => exact inv_init
  | step e _ ih => exact inv_applyEvent _ e ih

end FileConv

namespace FileConv

theorem reach_runEvents (s : SysState) (es : List Event) (h : Reachable s) :
    Reachable (runEvents s es) := by
  induction es generalizing s with
  | nil => exact h
  | cons e t ih => exact ih _ (Reachable.step e h)

theorem runLoop_iters (w : String) (steps : List WStep) :
    ∀ st : WState, (runLoop w st steps).iters = st.iters + steps.length := by
  induction steps with
  | nil => intro st; simp [runLoop]
  | cons step t ih =>
    intro st
    rw [show runLoop w st (step :: t) = runLoop w (loopStep w st step) t
      from rfl]
    rw [ih]
    have : (loopStep w st step).iters = st.iters + 1 := by
      cases hm : step.msg with
      | none => simp [loopStep, hm]
      | some m => simp [loopStep, hm, processJob]
    rw [this]
    simp
    omega

theorem not_mem_filter_ne (l : List String) (a : String) :
    a ∉ l.filter (fun x => x != a) := by
  intro h
  have := List.of_mem_filter h
  simp at this

theorem zadd_any_key {α : Type} [DecidableEq α] (q : ZSet α) (m : α)
    (sc : Int) : (zadd q m sc).any (fun p => p.1 == m) = true := by
  cases hq : q.any (fun p => p.1 == m) with
  | true =>
    have hz : zadd q m sc =
        q.map (fun p => if p.1 == m then (p.1, sc) else p) := by
      simp [zadd, hq]
    rw [hz, List.any_eq_true]
    rw [List.any_eq_true] at hq
    obtain ⟨p, hp, he⟩ := hq
    refine ⟨(if p.1 == m then (p.1, sc) else p),
      List.mem_map_of_mem _ hp, ?_⟩
    simp at he
    simp [he]
  | false =>
    have hz : zadd q m sc = q ++ [(m, sc)] := by simp [zadd, hq]
    rw [hz]
    simp

theorem metaJval_inj (a b : Option Metadata) (h : metaJval a = metaJval b) :
    a = b := by
  cases a with
  | none =>
    cases b with
    | none => rfl
    | some mb => simp [metaJval] at h
  | some ma =>
    cases b with
    | none => simp [metaJval] at h
    | some mb =>
      obtain ⟨sa, ca, ra⟩ := ma
      obtain ⟨sb, cb, rb⟩ := mb
      cases ra <;> cases rb <;> cases ca <;> cases cb <;>
        simp_all [metaJval]

theorem msgToJval_inj (m m' : QueueMessage)
    (h : msgToJval m = msgToJval m') : m = m' := by
  simp [msgToJval] at h
  obtain ⟨h1, h2, h3, h4, h5, h6, h7⟩ := h
  cases m
  cases m'
  simp_all
  exact metaJval_inj _ _ h7

theorem fromJsonPy_msgToJval (m : QueueMessage) :
    fromJsonPy (msgToJval m) = some (pyView m) := rfl

end FileConv

namespace FileConv

/-- C1: the claim says dequeue returns the highest-priority outstanding
message, and that on a queue holding priorities [5,1,9] the first dequeue
returns the priority-9 message.  Evaluating the embedded code at exactly
that input: enqueue stores score = -priority and dequeue pops with
BZPOPMAX, so the first dequeue returns the priority-1 message — the
LOWEST priority — contradicting the claim (and the code's own comments,
which say "pop with highest priority"). -/
theorem C1_dequeue_lowest_priority_eval :
    q519.map (fun p => p.1.priority) = [5, 1, 9] ∧
    (dequeueMsg q519).1 = some (mkPrioMsg "b" 1) ∧
    ((dequeueMsg q519).1.map QueueMessage.priority) = some 1 :=
  ⟨rfl, rfl, rfl⟩

/-- C2: the claim says cancelling a PENDING job removes its message and
sets CANCELLED for every conversion type.  Evaluating cancel_job on the
PENDING jpg_to_pdf job j1: the elif chain reaches the comparison with
ConversionType.MP4_TO_MP3, a member that does not exist, so Python raises
AttributeError, the handler answers HTTP 500, the job stays PENDING and a
subsequent dequeue still returns its message. -/
theorem C2_cancel_pending_image_job_eval :
    (lookupJob sJpg.jobs "j1").map JobRec.status = some .pending ∧
    (lookupJob sJpg.jobs "j1").map JobRec.conversion_type
      = some .jpg_to_pdf ∧
    queueForCancel .jpg_to_pdf = none ∧
    (cancelJob sJpg "j1").1 = .internalError ∧
    (lookupJob (cancelJob sJpg "j1").2.jobs "j1").map JobRec.status
      = some .pending ∧
    ((dequeueMsg ((cancelJob sJpg "j1").2.queues .IMAGE_PDF)).1.map
      QueueMessage.job_id) = some "j1" := by
  refine ⟨by decide, by decide, rfl, by decide, by decide, by decide⟩

/-- C9: enqueue is idempotent on byte-for-byte identical message content:
re-enqueueing the same message reports False (no member added) and leaves
the queue — hence also its size — exactly as after the first enqueue.
Identical JSON content is the same member because to_json is injective
(msgToJval_inj) and deterministic. -/
theorem C9_enqueue_idempotent (q : ZSet QueueMessage) (m : QueueMessage) :
    enqueueMsg (enqueueMsg q m).2 m = (false, (enqueueMsg q m).2) ∧
    zcard (enqueueMsg (enqueueMsg q m).2 m).2
      = zcard (enqueueMsg q m).2 := by
  have h1 : zaddIsNew (zadd q m (-m.priority)) m = false := by
    simp [zaddIsNew, zadd_any_key]
  have h2 := zadd_idem q m (-m.priority)
  constructor
  · show (zaddIsNew (zadd q m (-m.priority)) m,
      zadd (zadd q m (-m.priority)) m (-m.priority))
      = (false, zadd q m (-m.priority))
    rw [h1, h2]
  · show zcard (zadd (zadd q m (-m.priority)) m (-m.priority))
      = zcard (zadd q m (-m.priority))
    rw [h2]

/-- C10: dequeue answers None not only on a timeout against an empty
queue but also when the popped member fails to deserialize; in that case
the member has already been popped and is not re-queued (the input queue
is, up to the unspecified tie order, the popped entry on top of the
result queue), so the malformed message is silently lost and the caller
cannot tell the failing queue from an empty one. -/
theorem C10_dequeue_malformed (q : ZSet Jval) (v : Jval) (sc : Int)
    (q' : ZSet Jval) (hpop : zpopmax q = some ((v, sc), q'))
    (hbad : fromJsonPy v = none) :
    dequeueJ q = (none, q') ∧ q.Perm ((v, sc) :: q') ∧
    dequeueJ ([] : ZSet Jval) = (none, []) := by
  refine ⟨?_, zpopmax_perm _ _ _ hpop, rfl⟩
  simp [dequeueJ, hpop, hbad]

/-- Witness for C10 at a one-member queue holding the malformed wire
value jobj [] (an empty JSON object, which misses the required job_id
field, so from_json raises TypeError). -/
theorem C10_witness :
    dequeueJ [(Jval.jobj [], 5)] = (none, []) ∧
    ([(Jval.jobj [], 5)] : ZSet Jval).Perm ((Jval.jobj [], 5) :: []) ∧
    dequeueJ ([] : ZSet Jval) = (none, []) :=
  C10_dequeue_malformed [(Jval.jobj [], 5)] (Jval.jobj []) 5 [] rfl rfl

end FileConv

namespace FileConv

theorem retryStep_jobs (oracle : String → Bool)
    (acc : SysState × Nat × Nat) (p : String × JobRec) :
    (retryStep oracle acc p).1.jobs = acc.1.jobs ∨
    (retryStep oracle acc p).1.jobs = mapJob acc.1.jobs p.1 toPending := by
  rcases acc with ⟨st, a, b⟩
  cases ho : oracle p.1 with
  | false =>
    left
    simp [retryStep, ho]
  | true =>
    cases hn : zaddIsNew (st.queues (queueFor p.2.conversion_type))
        (retryMsg p.1 p.2) with
    | true =>
      right
      simp [retryStep, ho, enqueueMsg, hn]
    | false =>
      left
      simp [retryStep, ho, enqueueMsg, hn]

theorem retry_fold_other (oracle : String → Bool) :
    ∀ (L : List (String × JobRec)) (acc : SysState × Nat × Nat)
      (j : String), (∀ p ∈ L, p.1 ≠ j) →
    lookupJob (L.foldl (retryStep oracle) acc).1.jobs j
      = lookupJob acc.1.jobs j := by
  intro L
  induction L with
  | nil =>
    intro acc j h
    rfl
  | cons p T ih =>
    intro acc j h
    rw [List.foldl_cons]
    rw [ih (retryStep oracle acc p) j
      (fun q hq => h q (List.mem_cons_of_mem _ hq))]
    rcases retryStep_jobs oracle acc p with he | he
    · rw [he]
    · rw [he, lookup_mapJob_ne _ _ _ _
        (fun hc => (h p (List.mem_cons_self _ _)) hc.symm)]

theorem cancel_preserves_row (s : SysState) (j jc : String) (r : JobRec)
    (hl : lookupJob s.jobs j = some r)
    (ht : r.status = .completed ∨ r.status = .failed ∨
      r.status = .cancelled) :
    lookupJob (cancelJob s jc).2.jobs j = some r := by
  cases hlc : lookupJob s.jobs jc with
  | none =>
    rw [cancelJob_none s jc hlc]
    exact hl
  | some rc =>
    by_cases hterm : rc.status = .completed ∨ rc.status = .failed ∨
        rc.status = .cancelled
    · rw [cancelJob_rejected s jc rc hlc hterm]
      exact hl
    · have hne : j ≠ jc := by
        intro he
        subst he
        rw [hl] at hlc
        obtain rfl : r = rc := by simpa using hlc
        exact hterm ht
      cases hstat : rc.status with
      | completed => exact absurd (Or.inl hstat) hterm
      | failed => exact absurd (Or.inr (Or.inl hstat)) hterm
      | cancelled => exact absurd (Or.inr (Or.inr hstat)) hterm
      | pending =>
        cases hqc : queueForCancel rc.conversion_type with
        | none =>
          rw [cancelJob_attrError s jc rc hlc hstat hqc]
          exact hl
        | some qn =>
          rw [cancelJob_pending s jc rc qn hlc hstat hqc]
          show lookupJob (mapJob s.jobs jc toCancelled) j = some r
          rw [lookup_mapJob_ne _ _ _ _ hne]
          exact hl
      | uploaded =>
        rw [cancelJob_direct s jc rc hlc (Or.inl hstat)]
        show lookupJob (mapJob s.jobs jc toCancelled) j = some r
        rw [lookup_mapJob_ne _ _ _ _ hne]
        exact hl
      | processing =>
        rw [cancelJob_direct s jc rc hlc (Or.inr hstat)]
        show lookupJob (mapJob s.jobs jc toCancelled) j = some r
        rw [lookup_mapJob_ne _ _ _ _ hne]
        exact hl

/-- C4 (counterexample): the claim says no operation ever writes a
different status to a job whose status is terminal.  The reachable trace
upload d1 → worker claims it → user cancels it (PROCESSING is not in the
rejection list, so the row becomes CANCELLED, a terminal status) → the
worker finishes (its status write is unconditional) ends with the
CANCELLED job overwritten to COMPLETED. -/
theorem C4_counterexample :
    Reachable sD4 ∧
    (lookupJob sD3.jobs "d1").map JobRec.status = some .cancelled ∧
    sD4 = applyEvent sD3 (.finish "w0" (.ok "pdf") true) ∧
    (lookupJob sD4.jobs "d1").map JobRec.status = some .completed := by
  refine ⟨?_, by decide, rfl, by decide⟩
  have he : sD4 = runEvents initState
      [.upload upReqDocx, .claim "w0" .DOCX_PDF true, .cancel "d1",
       .finish "w0" (.ok "pdf") true] := rfl
  rw [he]
  exact reach_runEvents _ _ Reachable.init

/-- C4 (amended): once a job's status is terminal, the cancel and
retry-uploaded operations never write a different status to it — cancel
rejects terminal jobs and retry-uploaded only touches UPLOADED rows.  (As
the counterexample shows, the worker status write is unconditional, so
the claim does not extend to it.) -/
theorem C4_terminal_amended (s : SysState) (j : String) (r : JobRec)
    (hreach : Reachable s) (hl : lookupJob s.jobs j = some r)
    (ht : r.status = .completed ∨ r.status = .failed ∨
      r.status = .cancelled) :
    (∀ jc, lookupJob (cancelJob s jc).2.jobs j = some r) ∧
    (∀ oracle, lookupJob (retryUploadedRun s oracle).2.jobs j
      = some r) := by
  have hs := inv_reach s hreach
  refine ⟨fun jc => cancel_preserves_row s j jc r hl ht, ?_⟩
  intro oracle
  have hkeys : ∀ p ∈ s.jobs.filter (fun p => p.2.status == .uploaded),
      p.1 ≠ j := by
    intro p hp hc
    have hupl := List.of_mem_filter hp
    simp at hupl
    have hmem := List.mem_of_mem_filter hp
    have hlp : lookupJob s.jobs p.1 = some p.2 :=
      lookup_of_mem s.jobs p.1 p.2 hs.keysNodup hmem
    rw [hc, hl] at hlp
    obtain rfl : r = p.2 := by simpa using hlp
    rw [hupl] at ht
    rcases ht with hx | hx | hx <;> exact JobStatus.noConfusion hx
  show lookupJob ((s.jobs.filter
      (fun p => p.2.status == .uploaded)).foldl
      (retryStep oracle) (s, 0, 0)).1.jobs j = some r
  rw [retry_fold_other oracle _ (s, 0, 0) j hkeys]
  exact hl

/-- C5 (counterexample): the claim says cancel is rejected for a
PROCESSING job and the status is unchanged.  In the reachable state where
the worker has claimed d1 (status PROCESSING), cancel is accepted and the
row becomes CANCELLED. -/
theorem C5_counterexample :
    Reachable sD2 ∧
    (lookupJob sD2.jobs "d1").map JobRec.status = some .processing ∧
    (cancelJob sD2 "d1").1 = .ok ∧
    (lookupJob (cancelJob sD2 "d1").2.jobs "d1").map JobRec.status
      = some .cancelled := by
  refine ⟨?_, by decide, by decide, by decide⟩
  have he : sD2 = runEvents initState
      [.upload upReqDocx, .claim "w0" .DOCX_PDF true] := rfl
  rw [he]
  exact reach_runEvents _ _ Reachable.init

/-- C5 (amended): cancel is rejected, with the state unchanged, exactly
for the terminal statuses COMPLETED, FAILED and CANCELLED; a PROCESSING
job is not rejected: cancel answers ok and sets the row CANCELLED. -/
theorem C5_cancel_amended (s : SysState) (j : String) (r : JobRec)
    (hl : lookupJob s.jobs j = some r) :
    ((r.status = .completed ∨ r.status = .failed ∨
        r.status = .cancelled) →
      cancelJob s j = (.rejected r.status, s)) ∧
    (r.status = .processing →
      (cancelJob s j).1 = .ok ∧
      (lookupJob (cancelJob s j).2.jobs j).map JobRec.status
        = some .cancelled) := by
  constructor
  · intro ht
    exact cancelJob_rejected s j r hl ht
  · intro hp
    rw [cancelJob_direct s j r hl (Or.inr hp)]
    refine ⟨rfl, ?_⟩
    show (lookupJob (mapJob s.jobs j toCancelled) j).map JobRec.status
      = some .cancelled
    rw [lookup_mapJob_self, hl]
    rfl

/-- Witness for C5 (amended): cancel of the COMPLETED job t1 is rejected
and the state untouched; cancel of the PROCESSING job d1 is accepted and
marks it CANCELLED. -/
theorem C5_witness :
    cancelJob sTerm "t1" = (.rejected termRow.status, sTerm) ∧
    (cancelJob sD2 "d1").1 = .ok ∧
    (lookupJob (cancelJob sD2 "d1").2.jobs "d1").map JobRec.status
      = some .cancelled := by
  refine ⟨(C5_cancel_amended sTerm "t1" termRow (by decide)).1
    (Or.inl rfl), ?_, ?_⟩
  · exact ((C5_cancel_amended sD2 "d1" procRow (by decide)).2 rfl).1
  · exact ((C5_cancel_amended sD2 "d1" procRow (by decide)).2 rfl).2

/-- Witness for C4 (amended) at the reachable state holding the
COMPLETED job d1: cancelling it and running retry-uploaded both leave its
row — in particular its status — unchanged. -/
theorem C4_witness :
    lookupJob (cancelJob sDone "d1").2.jobs "d1" = some doneRow ∧
    lookupJob (retryUploadedRun sDone (fun _ => true)).2.jobs "d1"
      = some doneRow := by
  have hreach : Reachable sDone := by
    have he : sDone = runEvents initState
        [.upload upReqDocx, .claim "w0" .DOCX_PDF true,
         .finish "w0" (.ok "pdf") true] := rfl
    rw [he]
    exact reach_runEvents _ _ Reachable.init
  have h := C4_terminal_amended sDone "d1" doneRow hreach (by decide)
    (Or.inl rfl)
  exact ⟨h.1 "d1", h.2 (fun _ => true)⟩

end FileConv

namespace FileConv

/-- C3: once the Object Store write and the row insert have succeeded,
/upload answers success whatever the enqueue outcome; the persisted row
is PENDING when the enqueue succeeded and stays UPLOADED when it failed,
so a successful upload always leaves the status in {UPLOADED, PENDING},
with the row's file_path pointing at the stored object. -/
theorem C3_upload_commit_enqueue (s : SysState) (r : UploadReq)
    (ct : ConversionType) (qn : QueueName) (hreach : Reachable s)
    (h1 : ¬ r.filename = "")
    (hdc : determineConv r.convParam r.filename = some (ct, qn))
    (h2 : ¬ maxFileSize < r.size) (h3 : r.storageOk = true)
    (h4 : r.insertOk = true) (h5 : lookupJob s.jobs r.jobId = none) :
    ∃ row, (uploadFile s r).1 = .ok r.jobId row.status ∧
      lookupJob (uploadFile s r).2.jobs r.jobId = some row ∧
      (r.enqOk = true → row.status = .pending) ∧
      (r.enqOk = false → row.status = .uploaded) ∧
      (row.status = .uploaded ∨ row.status = .pending) ∧
      row.file_path = uploadPath r ∧
      uploadPath r ∈ (uploadFile s r).2.store := by
  have h5any : s.jobs.any (fun p => p.1 == r.jobId) = false := by
    rw [List.any_eq_false]
    intro p hp
    simp
    exact (lookup_eq_none_iff _ _).mp h5 p hp
  cases h6 : r.enqOk with
  | false =>
    rw [uploadFile_enqFail s r ct qn h1 hdc h2 h3 h4 h5any h6]
    refine ⟨uploadRow r ct, rfl, ?_,
      (fun hc => Bool.noConfusion hc),
      fun _ => rfl, Or.inl rfl, rfl, ?_⟩
    · show lookupJob (s.jobs ++ [(r.jobId, uploadRow r ct)]) r.jobId
        = some (uploadRow r ct)
      rw [lookup_append_none _ _ _ h5, lookup_cons]
      simp
    · show uploadPath r ∈ uploadPath r :: s.store
      exact List.mem_cons_self _ _
  | true =>
    have hs := inv_reach s hreach
    have hmc := msgCount_zero_of_no_row s hs r.jobId h5
    have hcq : (s.queues qn).countP (fun p => p.1.job_id == r.jobId)
        = 0 := by
      have := countP_le_msgCount s qn r.jobId
      omega
    have hnew : zaddIsNew (s.queues qn) (uploadMsg r ct) = true :=
      zaddIsNew_of_count0 _ _ hcq
    rw [uploadFile_enqOk s r ct qn h1 hdc h2 h3 h4 h5any h6 hnew]
    refine ⟨toPending (uploadRow r ct), rfl, ?_, fun _ => rfl,
      (fun hc => Bool.noConfusion hc),
      Or.inr rfl, rfl, ?_⟩
    · show lookupJob (mapJob (s.jobs ++ [(r.jobId, uploadRow r ct)])
        r.jobId toPending) r.jobId = some (toPending (uploadRow r ct))
      rw [lookup_mapJob_self, lookup_append_none _ _ _ h5, lookup_cons]
      simp
    · show uploadPath r ∈ uploadPath r :: s.store
      exact List.mem_cons_self _ _

/-- Witness for C3 at the empty state and the concrete .docx upload d1
(enqueue succeeding). -/
theorem C3_witness :
    ∃ row, (uploadFile initState upReqDocx).1
        = .ok upReqDocx.jobId row.status ∧
      lookupJob (uploadFile initState upReqDocx).2.jobs upReqDocx.jobId
        = some row ∧
      (upReqDocx.enqOk = true → row.status = .pending) ∧
      (upReqDocx.enqOk = false → row.status = .uploaded) ∧
      (row.status = .uploaded ∨ row.status = .pending) ∧
      row.file_path = uploadPath upReqDocx ∧
      uploadPath upReqDocx ∈ (uploadFile initState upReqDocx).2.store :=
  C3_upload_commit_enqueue initState upReqDocx .docx_to_pdf .DOCX_PDF
    Reachable.init (by decide) (by decide) (by decide) rfl rfl rfl

/-- C6: in every reachable state, a job row's output_path is set to a
non-empty path exactly when its status is COMPLETED — the workers write
output_path only together with COMPLETED (always a non-empty
converted/{job_id}.{ext} path), and no other operation touches it. -/
theorem C6_output_iff_completed (s : SysState) (hreach : Reachable s)
    (j : String) (r : JobRec) (hl : lookupJob s.jobs j = some r) :
    outputSet r = true ↔ r.status = .completed :=
  (inv_reach s hreach).outIff j r hl

/-- Witness for C6 at the reachable state where d1 completed: its row has
status COMPLETED, and the invariant instance yielded by the theorem holds
at it. -/
theorem C6_witness :
    lookupJob sDone.jobs "d1" = some doneRow ∧ doneRow.status = .completed
      ∧ (outputSet doneRow = true ↔ doneRow.status = .completed) := by
  have hreach : Reachable sDone := by
    have he : sDone = runEvents initState
        [.upload upReqDocx, .claim "w0" .DOCX_PDF true,
         .finish "w0" (.ok "pdf") true] := rfl
    rw [he]
    exact reach_runEvents _ _ Reachable.init
  exact ⟨by decide, rfl,
    C6_output_iff_completed sDone hreach "d1" doneRow (by decide)⟩

/-- C7: per-message worker isolation — after _process_job runs, the job
id is never left in the active set, whatever the outcome; an exception
escaping the conversion is converted into a FAILED status on the row; and
the worker loop completes every iteration regardless of the per-message
outcomes (an exception never terminates it). -/
theorem C7_worker_isolation (w : String) (st : WState)
    (m : QueueMessage) (outcome : ConvOutcome) (steps : List WStep)
    (r : JobRec) (hrow : lookupJob st.jobs m.job_id = some r) :
    m.job_id ∉ (processJob st w m outcome).actives ∧
    (∀ e, outcome = .exn e →
      (lookupJob (processJob st w m outcome).jobs m.job_id).map
        JobRec.status = some .failed) ∧
    (runLoop w st steps).iters = st.iters + steps.length := by
  refine ⟨?_, ?_, runLoop_iters w steps st⟩
  · show m.job_id ∉ (if st.actives.contains m.job_id then st.actives
      else m.job_id :: st.actives).filter (fun x => x != m.job_id)
    exact not_mem_filter_ne _ _
  · intro e he
    subst he
    show (lookupJob (mapJob (mapJob st.jobs m.job_id
        (toProcessing w "worker")) m.job_id
        (finishUpdate m.job_id (ConvOutcome.exn e))) m.job_id).map
      JobRec.status = some .failed
    rw [lookup_mapJob_self, lookup_mapJob_self, hrow]
    rfl

/-- Witness for C7 on a one-job pool where the conversion of w1 raises,
followed by a timeout iteration: the active set does not retain w1, the
row is FAILED, and both loop iterations ran. -/
theorem C7_witness :
    wMsg.job_id ∉ (processJob wSt0 "wk" wMsg (.exn "boom")).actives ∧
    (lookupJob (processJob wSt0 "wk" wMsg (.exn "boom")).jobs
      wMsg.job_id).map JobRec.status = some .failed ∧
    (runLoop "wk" wSt0
      [⟨some wMsg, .exn "boom"⟩, ⟨none, .err "x"⟩]).iters = 2 := by
  have h := C7_worker_isolation "wk" wSt0 wMsg (.exn "boom")
    [⟨some wMsg, .exn "boom"⟩, ⟨none, .err "x"⟩] wRow (by decide)
  exact ⟨h.1, h.2.1 "boom" rfl, h.2.2⟩

/-- C8: retry-uploaded examines exactly the rows at UPLOADED — every
other row is left untouched — flips each examined row to PENDING exactly
when its enqueue succeeds, leaving it UPLOADED otherwise, and reports the
number of successful and of failed enqueues. -/
theorem C8_retry_uploaded (s : SysState) (oracle : String → Bool)
    (hreach : Reachable s) :
    (retryUploadedRun s oracle).1.1
      = (s.jobs.filter (fun p => p.2.status == .uploaded)).countP
          (fun p => oracle p.1) ∧
    (retryUploadedRun s oracle).1.2
      = (s.jobs.filter (fun p => p.2.status == .uploaded)).countP
          (fun p => !oracle p.1) ∧
    (∀ p ∈ s.jobs.filter (fun p => p.2.status == .uploaded),
      lookupJob (retryUploadedRun s oracle).2.jobs p.1
        = some (if oracle p.1 then toPending p.2 else p.2)) ∧
    (∀ j r, lookupJob s.jobs j = some r → r.status ≠ .uploaded →
      lookupJob (retryUploadedRun s oracle).2.jobs j = some r) := by
  have hs := inv_reach s hreach
  have hB : ∀ p ∈ s.jobs.filter (fun p => p.2.status == .uploaded),
      lookupJob s.jobs p.1 = some p.2 ∧ p.2.status = .uploaded := by
    intro p hp
    have hmem := List.mem_of_mem_filter hp
    have hupl := List.of_mem_filter hp
    simp at hupl
    exact ⟨lookup_of_mem s.jobs p.1 p.2 hs.keysNodup
      (by rw [show (p.1, p.2) = p from rfl]; exact hmem), hupl⟩
  have hnd : ((s.jobs.filter
      (fun p => p.2.status == .uploaded)).map Prod.fst).Nodup :=
    hs.keysNodup.sublist ((List.filter_sublist _).map _)
  obtain ⟨i1, i2, i3, i4, i5⟩ :=
    retry_fold_spec oracle _ s 0 0 hs hB hnd
  refine ⟨?_, ?_, ?_, ?_⟩
  · show ((s.jobs.filter (fun p => p.2.status == .uploaded)).foldl
      (retryStep oracle) (s, 0, 0)).2.1 = _
    rw [i2]
    simp
  · show ((s.jobs.filter (fun p => p.2.status == .uploaded)).foldl
      (retryStep oracle) (s, 0, 0)).2.2 = _
    rw [i3]
    simp
  · intro p hp
    exact i4 p hp
  · intro j r hl hnup
    have hkeys : ∀ p ∈ s.jobs.filter (fun p => p.2.status == .uploaded),
        p.1 ≠ j := by
      intro p hp hc
      obtain ⟨hlp, hup⟩ := hB p hp
      rw [hc, hl] at hlp
      obtain rfl : r = p.2 := by simpa using hlp
      exact hnup hup
    have h5 := i5 j hkeys
    show lookupJob ((s.jobs.filter
        (fun p => p.2.status == .uploaded)).foldl
        (retryStep oracle) (s, 0, 0)).1.jobs j = some r
    rw [h5]
    exact hl

/-- Witness for C8 at the state with the single stuck UPLOADED job u1 and
an enqueue that succeeds: the retried count is 1, the failed count is 0
and u1 is PENDING afterwards. -/
theorem C8_witness :
    (retryUploadedRun sU1 (fun _ => true)).1.1 = 1 ∧
    (retryUploadedRun sU1 (fun _ => true)).1.2 = 0 ∧
    (lookupJob (retryUploadedRun sU1 (fun _ => true)).2.jobs "u1").map
      JobRec.status = some .pending := by
  have hreach : Reachable sU1 := by
    have he : sU1 = runEvents initState [.upload upReqStuck] := rfl
    rw [he]
    exact reach_runEvents _ _ Reachable.init
  have h := C8_retry_uploaded sU1 (fun _ => true) hreach
  refine ⟨?_, ?_, ?_⟩
  · rw [h.1]
    decide
  · rw [h.2.1]
    decide
  · have hm : ("u1", uploadRow upReqStuck .docx_to_pdf) ∈
        sU1.jobs.filter (fun p => p.2.status == .uploaded) := by decide
    have h4 := h.2.2.1 _ hm
    rw [show ("u1", uploadRow upReqStuck .docx_to_pdf).1 = "u1"
      from rfl] at h4
    rw [h4]
    rfl

end FileConv
